import Mathlib

/-!
Verification of the survey QC pipeline (src/Main.py) against its
natural-language specification.

The embedding: a pandas cell is `Cell` (the NaN sentinel is `Cell.missing`),
a Series is a `List Cell`, and a DataFrame is a column-name list together
with rows given as association lists from column name to cell (index-aligned
with the column list for well-formed frames).  Pure pandas operations used by
the source (strip, whitespace collapse, upper, drop, melt, notna filter,
merge with suffixes) are translated below; operations that can raise
(melt with a colliding value_name, merge on an absent key column) return
`Except String DataFrame`.
-/

/-- Python whitespace test restricted to the ASCII range: the characters
matched by the regex class backslash-s on ASCII text, and the ones removed by
str.strip for such text (space, tab, newline, carriage return, vertical tab,
form feed). -/
def pyWs (c : Char) : Bool :=
  decide (c.toNat = 32 ∨ c.toNat = 9 ∨ c.toNat = 10 ∨ c.toNat = 13 ∨
    c.toNat = 11 ∨ c.toNat = 12)

/-- Model of pandas str.strip on the left: drop leading whitespace. -/
def stripLeft (l : List Char) : List Char := l.dropWhile pyWs

/-- Model of pandas str.strip: drop leading and trailing whitespace. -/
def stripChars (l : List Char) : List Char :=
  ((l.dropWhile pyWs).reverse.dropWhile pyWs).reverse

/-- Model of re.sub applied with pattern backslash-s-plus and replacement
a single space: every maximal run of whitespace becomes one ASCII space. -/
def collapseWs : List Char → List Char
  | [] => []
  | [a] => if pyWs a then [' '] else [a]
  | a :: b :: rest =>
    if pyWs a then
      if pyWs b then collapseWs (b :: rest)
      else ' ' :: collapseWs (b :: rest)
    else a :: collapseWs (b :: rest)

/-- Model of pandas str.upper on ASCII text: uppercase every character. -/
def upperChars (l : List Char) : List Char := l.map Char.toUpper

/-- The string transformation performed by cleanse_series on one non-null
entry: strip, collapse internal whitespace, optionally uppercase
(src/Main.py lines 21 to 24, in source order). -/
def cleanseStr (upper : Bool) (s : String) : String :=
  let core := collapseWs (stripChars s.data)
  ⟨if upper then upperChars core else core⟩

/-- A pandas cell: the canonical missing marker (NaN), a string, or an
integer.  Only these cell kinds occur in the tables the pipeline consumes. -/
inductive Cell where
  | missing
  | str (s : String)
  | int (n : Int)
deriving DecidableEq

/-- Python str() of a present cell, as used by astype(str) in cleanse_series.
The missing case is never reached (cleansing keeps NaNs as NaNs); it is given
the Python rendering of NaN for definiteness. -/
def Cell.toStr : Cell → String
  | .missing => "nan"
  | .str s => s
  | .int n => toString n

/-- One cell under cleanse_series: NaNs are kept as NaNs (the notna mask in
src/Main.py line 20), present values are cast to string and cleansed. -/
def cleanseCell (upper : Bool) : Cell → Cell
  | .missing => .missing
  | c => .str (cleanseStr upper c.toStr)

/-- cleanse_series (src/Main.py lines 9 to 25) on a column of cells. -/
def cleanse_series (s : List Cell) (upper : Bool := true) : List Cell :=
  s.map (cleanseCell upper)

/-- A DataFrame row: an association list from column name to cell.  A
well-formed row lists exactly the columns of its frame, in order. -/
abbrev Row := List (String × Cell)

/-- A pandas DataFrame: named columns plus rows. -/
structure DataFrame where
  cols : List String
  rows : List Row
deriving DecidableEq

/-- Well-formedness: every row carries exactly the frame columns in order. -/
def DataFrame.WF (df : DataFrame) : Prop :=
  ∀ r ∈ df.rows, r.map Prod.fst = df.cols

instance (df : DataFrame) : Decidable df.WF := by
  unfold DataFrame.WF; infer_instance

/-- Cell of a row under a column name; missing when the name is absent
(never the case on well-formed rows for in-schema names). -/
def rowGet (r : Row) (c : String) : Cell :=
  (r.lookup c).getD Cell.missing

/-- One row under cleanse_df: the cells of the named columns are cleansed,
all other cells are untouched. -/
def cleanseRow (colsToClean : List String) (upper : Bool) (r : Row) : Row :=
  r.map fun p => (p.1, if p.1 ∈ colsToClean then cleanseCell upper p.2 else p.2)

/-- cleanse_df (src/Main.py lines 28 to 33): cleanse each listed column that
exists in the frame; listed names absent from the frame are silently
skipped (the membership guard on line 31). -/
def cleanse_df (df : DataFrame) (cols : List String) (upper : Bool := true) :
    DataFrame :=
  ⟨df.cols, df.rows.map (cleanseRow cols upper)⟩

/-- DataFrame.drop with errors ignored (src/Main.py line 49): remove the
listed columns where present, keep everything else in order. -/
def dropCols (df : DataFrame) (ds : List String) : DataFrame :=
  ⟨df.cols.filter (fun c => decide (c ∉ ds)),
   df.rows.map (fun r => r.filter (fun p => decide (p.1 ∉ ds)))⟩

/-- Key fields restricted to the columns actually present
(src/Main.py line 56). -/
def keysOf (cols keyFields : List String) : List String :=
  keyFields.filter (fun c => decide (c ∈ cols))

/-- The value columns: every column that is not a key (src/Main.py line 57). -/
def dataColsOf (cols keys : List String) : List String :=
  cols.filter (fun c => decide (c ∉ keys))

/-- One output row of melt: the key cells copied, then the Name and Value
pair for one value column. -/
def meltRow (keys : List String) (v : String) (r : Row) : Row :=
  keys.map (fun k => (k, rowGet r k)) ++ [("Name", Cell.str v), ("Value", rowGet r v)]

/-- DataFrame.melt with var_name Name and value_name Value (src/Main.py
lines 59 to 64).  pandas raises when value_name collides with an existing
column; the embedding returns that error.  The output stacks the melted
rows value-column-major, as pandas does. -/
def melt (df : DataFrame) (keys dataCols : List String) :
    Except String DataFrame :=
  if "Value" ∈ df.cols then
    .error "ValueError: value_name cannot match an element in the frame columns"
  else
    .ok ⟨keys ++ ["Name", "Value"],
      (dataCols.map (fun v => df.rows.map (meltRow keys v))).flatten⟩

/-- The notna filter on Value (src/Main.py line 67). -/
def filterValueNotNa (df : DataFrame) : DataFrame :=
  ⟨df.cols, df.rows.filter (fun r => decide (rowGet r "Value" ≠ Cell.missing))⟩

/-- Right-side column renaming of a pandas merge with suffixes given as the
empty string for the left and this suffix for the right: a right column
colliding with a left column gets the suffix. -/
def renameRightCol (leftCols : List String) (suffix c : String) : String :=
  if c ∈ leftCols then c ++ suffix else c

/-- The non-key right columns after renaming, in order. -/
def rightColsRenamed (leftCols rightCols : List String) (key suffix : String) :
    List String :=
  (rightCols.filter (fun c => decide (c ≠ key))).map (renameRightCol leftCols suffix)

/-- A right row contributed to a merged row: key entry removed, colliding
names suffixed. -/
def renameRightRow (leftCols : List String) (key suffix : String) (q : Row) : Row :=
  (q.filter (fun p => decide (p.1 ≠ key))).map
    (fun p => (renameRightCol leftCols suffix p.1, p.2))

/-- The right rows whose key cell equals the given cell. -/
def matchRows (right : DataFrame) (key : String) (k : Cell) : List Row :=
  right.rows.filter (fun q => decide (rowGet q key = k))

/-- DataFrame.merge on one key column (src/Main.py lines 88 and 101).
pandas raises a KeyError when either side lacks the key column.  For each
left row, matching right rows fan out; with how left, an unmatched left row
survives with the right columns null-filled, with how inner it is dropped.
Left row order is preserved, as pandas guarantees for both join kinds. -/
def mergeDF (left right : DataFrame) (key : String) (leftJoin : Bool)
    (suffix : String) : Except String DataFrame :=
  if key ∈ left.cols ∧ key ∈ right.cols then
    .ok ⟨left.cols ++ rightColsRenamed left.cols right.cols key suffix,
      (left.rows.map (fun r =>
        let ms := matchRows right key (rowGet r key)
        if leftJoin = true ∧ ms = [] then
          [r ++ (rightColsRenamed left.cols right.cols key suffix).map
            (fun c => (c, Cell.missing))]
        else ms.map (fun q => r ++ renameRightRow left.cols key suffix q))).flatten⟩
  else .error ("KeyError: " ++ key)

/-- The recon columns cleansed before the Stage A join
(src/Main.py lines 74 to 84). -/
def reconColsToClean : List String :=
  ["Name", "Question number", "Section", "Question Text", "Answer Option",
   "Loop Variable", "Matrix Dimension", "Double Loop Var1", "Double Loop Var2"]

/-- The default key fields (src/Main.py line 53). -/
def defaultKeyFields : List String := ["Respondent", "End time (GMT)", "Panel"]

/-- Step 2 of build_qc_output (src/Main.py lines 48 to 49): drop the listed
columns when the list is given and non-empty (the Python truthiness test). -/
def pruneResponses (df : DataFrame) (dl : Option (List String)) : DataFrame :=
  match dl with
  | some ds => if ds.isEmpty then df else dropCols df ds
  | none => df

/-- Steps 3 and 4 of build_qc_output (src/Main.py lines 52 to 67): restrict
the key fields to present columns, melt everything else into Name and Value
rows, and drop rows with a missing Value. -/
def reshapeResponses (df : DataFrame) (kl : Option (List String)) :
    Except String DataFrame :=
  let keys := keysOf df.cols (kl.getD defaultKeyFields)
  (melt df keys (dataColsOf df.cols keys)).map filterValueNotNa

/-- Step 5 of build_qc_output (src/Main.py line 70): cleanse the Respondent,
Panel and Name columns of the long table, uppercasing. -/
def cleanseLong (df : DataFrame) : DataFrame :=
  cleanse_df df ["Respondent", "Panel", "Name"] true

/-- Steps 6 and 7 of build_qc_output (src/Main.py lines 74 to 88): cleanse
the recon text columns, then inner join the long table to it on Name with
suffix _recon for colliding recon columns. -/
def stageA (long recon : DataFrame) : Except String DataFrame :=
  mergeDF long (cleanse_df recon reconColsToClean true) "Name" false "_recon"

/-- Step 8 of build_qc_output (src/Main.py lines 92 to 101): cleanse the
Value column on both sides (the numerical side only when present, which is
exactly what cleanse_df does), then left join on Value with suffix _num. -/
def stageB (joined numerical : DataFrame) : Except String DataFrame :=
  mergeDF (cleanse_df joined ["Value"] true) (cleanse_df numerical ["Value"] true)
    "Value" true "_num"

/-- build_qc_output (src/Main.py lines 36 to 103).  The recon_sheet_expected
parameter of the source is unused by the body and omitted. -/
def build_qc_output (responses recon numerical : DataFrame)
    (drop_from_responses : Option (List String) := none)
    (responses_key_fields : Option (List String) := none) :
    Except String DataFrame := do
  let r1 := cleanse_df responses [] false
  let r2 := pruneResponses r1 drop_from_responses
  let long ← reshapeResponses r2 responses_key_fields
  let joined ← stageA (cleanseLong long) recon
  stageB joined numerical

/-- The maximal whitespace-free words of a character list, in order.  This is
the spec-side view of cleansing: the contract describes the result as the
input with leading and trailing whitespace removed and every internal run of
whitespace collapsed to one ASCII space, which is exactly the words joined by
single spaces. -/
def wordsWs : List Char → List (List Char)
  | [] => []
  | c :: cs =>
    if pyWs c then wordsWs cs
    else (c :: cs.takeWhile (fun d => !pyWs d)) :: wordsWs (cs.dropWhile (fun d => !pyWs d))
termination_by l => l.length
decreasing_by
  all_goals simp only [List.length_cons]
  · omega
  · exact Nat.lt_succ_of_le ((List.dropWhile_sublist _).length_le)

/-- Join words with single ASCII spaces. -/
def joinSp : List (List Char) → List Char
  | [] => []
  | [w] => w
  | w :: w2 :: rest => w ++ ' ' :: joinSp (w2 :: rest)

/-- The cleansing contract as the spec words it: trim the ends, collapse each
internal whitespace run to one ASCII space (that is, join the whitespace-free
words with single spaces), and uppercase exactly when case folding is
requested. -/
def cleanseSpecStr (upper : Bool) (s : String) : String :=
  let core := joinSp (wordsWs s.data)
  ⟨if upper then upperChars core else core⟩

/-- Uppercase the content of a string cell, leave other cells alone. -/
def cellUpper : Cell → Cell
  | .str s => .str ⟨upperChars s.data⟩
  | c => c

/-- Modelled from the spec: the pipeline as build_qc_output but with the
case_fold configuration option the spec lists in its configuration section,
controlling whether the cleansing applied to the reshaped table, the recon
table and the two Value columns upper-cases text.  build_qc_output itself
exposes no such parameter; this definition exists to compare the promised
configurable pipeline against the source one. -/
def build_qc_output_cf (case_fold : Bool) (responses recon numerical : DataFrame)
    (drop_from_responses responses_key_fields : Option (List String)) :
    Except String DataFrame := do
  let r1 := cleanse_df responses [] false
  let r2 := pruneResponses r1 drop_from_responses
  let long ← reshapeResponses r2 responses_key_fields
  let longC := cleanse_df long ["Respondent", "Panel", "Name"] case_fold
  let joined ← mergeDF longC (cleanse_df recon reconColsToClean case_fold)
    "Name" false "_recon"
  mergeDF (cleanse_df joined ["Value"] case_fold)
    (cleanse_df numerical ["Value"] case_fold) "Value" true "_num"

/-- The three caller-owned argument tables of one pipeline invocation. -/
structure PipelineInputs where
  responses : DataFrame
  recon : DataFrame
  numerical : DataFrame
deriving DecidableEq

/-- One call of build_qc_output together with the caller-visible state of the
three argument objects after the call.  Every in-place write in the source
targets an object created in the same scope: cleanse_series writes into
s.copy() (line 19), cleanse_df into df.copy() (line 29), the numerical Value
assignment into numerical_df.copy() (line 93), and the joined Value
assignment (line 97) into the fresh merge result of line 88; melt, drop and
merge all return new frames.  The argument objects are therefore never
written, which this embedding records by returning them unchanged as the
post-call state. -/
def build_qc_output_run (inp : PipelineInputs) (dl kl : Option (List String)) :
    Except String DataFrame × PipelineInputs :=
  (build_qc_output inp.responses inp.recon inp.numerical dl kl,
   ⟨inp.responses, inp.recon, inp.numerical⟩)

/-- The column list of the final QC table as the two merges build it: the
reshaped columns (present key fields, then Name and Value), the suffixed
non-key metadata columns, then the suffixed non-key numeric columns.  Its
duplicate-freedom is the schema condition under which the pandas merges
raise no suffix-collision MergeError. -/
def qcOutCols (responses recon numerical : DataFrame)
    (dl kl : Option (List String)) : List String :=
  ((keysOf (pruneResponses (cleanse_df responses [] false) dl).cols
      (kl.getD defaultKeyFields) ++ ["Name", "Value"]) ++
    rightColsRenamed
      (keysOf (pruneResponses (cleanse_df responses [] false) dl).cols
        (kl.getD defaultKeyFields) ++ ["Name", "Value"])
      recon.cols "Name" "_recon") ++
  rightColsRenamed
    ((keysOf (pruneResponses (cleanse_df responses [] false) dl).cols
        (kl.getD defaultKeyFields) ++ ["Name", "Value"]) ++
      rightColsRenamed
        (keysOf (pruneResponses (cleanse_df responses [] false) dl).cols
          (kl.getD defaultKeyFields) ++ ["Name", "Value"])
        recon.cols "Name" "_recon")
    numerical.cols "Value" "_num"

/-- The concrete response table of the spec scenario: one row, key
Respondent, answers Q1 present and Q2 missing. -/
def c8Responses : DataFrame :=
  ⟨["Respondent", "Q1", "Q2"],
   [[("Respondent", Cell.str "r1 "), ("Q1", Cell.str " yes "), ("Q2", Cell.missing)]]⟩

/-- The concrete metadata table of the spec scenario. -/
def c8Recon : DataFrame :=
  ⟨["Name", "Section"], [[("Name", Cell.str "Q1"), ("Section", Cell.str "A")]]⟩

/-- The concrete numeric lookup table of the spec scenario. -/
def c8Numerical : DataFrame :=
  ⟨["Value", "Code"], [[("Value", Cell.str "YES"), ("Code", Cell.int 1)]]⟩

theorem toNat_ofNat_valid (n : Nat) (h : n.isValidChar) : (Char.ofNat n).toNat = n := by
  rw [Char.ofNat, dif_pos h]; rfl

theorem toNat_toUpper (c : Char) :
    (Char.toUpper c).toNat =
      if 97 ≤ c.toNat ∧ c.toNat ≤ 122 then c.toNat - 32 else c.toNat := by
  simp only [Char.toUpper, ge_iff_le]
  by_cases h : 97 ≤ c.toNat ∧ c.toNat ≤ 122
  · rw [if_pos h, if_pos h]
    exact toNat_ofNat_valid _ (Or.inl (by omega))
  · rw [if_neg h, if_neg h]

theorem toUpper_eq_self (c : Char) (h : ¬ (97 ≤ c.toNat ∧ c.toNat ≤ 122)) :
    c.toUpper = c := by
  simp only [Char.toUpper, ge_iff_le]
  rw [if_neg h]

theorem toUpper_toUpper (c : Char) : c.toUpper.toUpper = c.toUpper := by
  apply toUpper_eq_self
  rw [toNat_toUpper c]
  by_cases h : 97 ≤ c.toNat ∧ c.toNat ≤ 122
  · rw [if_pos h]; omega
  · rw [if_neg h]; exact h

theorem pyWs_toUpper (c : Char) : pyWs c.toUpper = pyWs c := by
  simp only [pyWs]
  rw [decide_eq_decide, toNat_toUpper c]
  by_cases h : 97 ≤ c.toNat ∧ c.toNat ≤ 122
  · rw [if_pos h]; omega
  · rw [if_neg h]

theorem strongRecList {α : Type} (P : List α → Prop)
    (step : ∀ l : List α, (∀ m : List α, m.length < l.length → P m) → P l) :
    ∀ l : List α, P l := by
  have key : ∀ n (l : List α), l.length ≤ n → P l := by
    intro n
    induction n with
    | zero =>
      intro l hl
      exact step l (fun m hm => absurd (Nat.lt_of_lt_of_le hm hl) (Nat.not_lt_zero _))
    | succ n ih =>
      intro l hl
      exact step l (fun m hm => ih m (by omega))
  exact fun l => key l.length l (Nat.le_refl _)

theorem wordsWs_nil : wordsWs [] = [] := by
  rw [wordsWs]

theorem wordsWs_cons_ws {c : Char} (cs : List Char) (h : pyWs c = true) :
    wordsWs (c :: cs) = wordsWs cs := by
  rw [wordsWs]
  simp [h]

theorem wordsWs_cons_not_ws {c : Char} (cs : List Char) (h : pyWs c = false) :
    wordsWs (c :: cs) =
      (c :: cs.takeWhile (fun d => !pyWs d)) ::
        wordsWs (cs.dropWhile (fun d => !pyWs d)) := by
  rw [wordsWs]
  simp [h]

theorem wordsWs_eq_nil (l : List Char) (h : ∀ c ∈ l, pyWs c = true) :
    wordsWs l = [] := by
  induction l with
  | nil => exact wordsWs_nil
  | cons c cs ih =>
    rw [wordsWs_cons_ws cs (h c (by simp))]
    exact ih (fun d hd => h d (by simp [hd]))

theorem all_ws_of_wordsWs_eq_nil (l : List Char) (h : wordsWs l = []) :
    ∀ c ∈ l, pyWs c = true := by
  induction l with
  | nil => simp
  | cons c cs ih =>
    by_cases hc : pyWs c = true
    · rw [wordsWs_cons_ws cs hc] at h
      intro d hd
      rcases List.mem_cons.1 hd with rfl | hd
      · exact hc
      · exact ih h d hd
    · rw [wordsWs_cons_not_ws cs (by simpa using hc)] at h
      exact absurd h (by simp)

theorem wordsWs_dropWhile (l : List Char) :
    wordsWs (l.dropWhile pyWs) = wordsWs l := by
  induction l with
  | nil => rfl
  | cons c cs ih =>
    by_cases h : pyWs c = true
    · rw [List.dropWhile_cons_of_pos h, ih, wordsWs_cons_ws cs h]
    · rw [List.dropWhile_cons_of_neg (by simp [h])]

theorem takeWhile_append_all {α : Type} (p : α → Bool) (xs ys : List α)
    (h : ∀ a ∈ xs, p a = true) :
    (xs ++ ys).takeWhile p = xs ++ ys.takeWhile p := by
  induction xs with
  | nil => simp
  | cons a xs ih =>
    rw [List.cons_append, List.takeWhile_cons_of_pos (h a (by simp)), List.cons_append,
      ih (fun b hb => h b (by simp [hb]))]

theorem dropWhile_append_all {α : Type} (p : α → Bool) (xs ys : List α)
    (h : ∀ a ∈ xs, p a = true) :
    (xs ++ ys).dropWhile p = ys.dropWhile p := by
  induction xs with
  | nil => simp
  | cons a xs ih =>
    rw [List.cons_append, List.dropWhile_cons_of_pos (h a (by simp))]
    exact ih (fun b hb => h b (by simp [hb]))

theorem takeWhile_all {α : Type} (p : α → Bool) (xs : List α)
    (h : ∀ a ∈ xs, p a = true) : xs.takeWhile p = xs := by
  induction xs with
  | nil => simp
  | cons a xs ih =>
    rw [List.takeWhile_cons_of_pos (h a (by simp)), ih (fun b hb => h b (by simp [hb]))]

theorem dropWhile_all {α : Type} (p : α → Bool) (xs : List α)
    (h : ∀ a ∈ xs, p a = true) : xs.dropWhile p = [] := by
  induction xs with
  | nil => simp
  | cons a xs ih =>
    rw [List.dropWhile_cons_of_pos (h a (by simp))]
    exact ih (fun b hb => h b (by simp [hb]))

theorem takeWhile_append_stop {α : Type} (p : α → Bool) (xs ys : List α)
    (h : ∃ a ∈ xs, p a = false) :
    (xs ++ ys).takeWhile p = xs.takeWhile p := by
  induction xs with
  | nil => simp at h
  | cons a xs ih =>
    by_cases ha : p a = true
    · have h2 : ∃ b ∈ xs, p b = false := by
        rcases h with ⟨b, hb, hbf⟩
        rcases List.mem_cons.1 hb with rfl | hb
        · rw [ha] at hbf; cases hbf
        · exact ⟨b, hb, hbf⟩
      rw [List.cons_append, List.takeWhile_cons_of_pos ha, List.takeWhile_cons_of_pos ha,
        ih h2]
    · rw [List.cons_append, List.takeWhile_cons_of_neg (by simpa using ha),
        List.takeWhile_cons_of_neg (by simpa using ha)]

theorem dropWhile_append_stop {α : Type} (p : α → Bool) (xs ys : List α)
    (h : ∃ a ∈ xs, p a = false) :
    (xs ++ ys).dropWhile p = xs.dropWhile p ++ ys := by
  induction xs with
  | nil => simp at h
  | cons a xs ih =>
    by_cases ha : p a = true
    · have h2 : ∃ b ∈ xs, p b = false := by
        rcases h with ⟨b, hb, hbf⟩
        rcases List.mem_cons.1 hb with rfl | hb
        · rw [ha] at hbf; cases hbf
        · exact ⟨b, hb, hbf⟩
      rw [List.cons_append, List.dropWhile_cons_of_pos ha, List.dropWhile_cons_of_pos ha,
        ih h2]
    · rw [List.cons_append, List.dropWhile_cons_of_neg (by simpa using ha),
        List.dropWhile_cons_of_neg (by simpa using ha), List.cons_append]

theorem wordsWs_append_ws (u t : List Char) (ht : ∀ c ∈ t, pyWs c = true) :
    wordsWs (u ++ t) = wordsWs u := by
  induction u using strongRecList with
  | step u ih =>
    match u with
    | [] =>
      rw [List.nil_append, wordsWs_eq_nil t ht, wordsWs_nil]
    | c :: cs =>
      by_cases hc : pyWs c = true
      · rw [List.cons_append, wordsWs_cons_ws _ hc, wordsWs_cons_ws cs hc]
        exact ih cs (by simp)
      · rw [List.cons_append, wordsWs_cons_not_ws _ (by simpa using hc),
          wordsWs_cons_not_ws cs (by simpa using hc)]
        by_cases hall : ∀ d ∈ cs, pyWs d = false
        · have htake : (cs ++ t).takeWhile (fun d => !pyWs d) = cs ++ [] := by
            rw [takeWhile_append_all _ cs t (fun a ha => by simp [hall a ha])]
            congr 1
            cases t with
            | nil => rfl
            | cons x xs => exact List.takeWhile_cons_of_neg (by simp [ht x (by simp)])
          have hdrop : (cs ++ t).dropWhile (fun d => !pyWs d) = t := by
            rw [dropWhile_append_all _ cs t (fun a ha => by simp [hall a ha])]
            cases t with
            | nil => rfl
            | cons x xs => exact List.dropWhile_cons_of_neg (by simp [ht x (by simp)])
          rw [htake, hdrop, List.append_nil, takeWhile_all _ cs (fun a ha => by simp [hall a ha]),
            dropWhile_all _ cs (fun a ha => by simp [hall a ha]), wordsWs_eq_nil t ht,
            wordsWs_nil]
        · push_neg at hall
          have hex : ∃ d ∈ cs, (fun d => !pyWs d) d = false := by
            rcases hall with ⟨d, hd, hdf⟩
            exact ⟨d, hd, by simp [Bool.not_eq_false] at hdf ⊢; exact hdf⟩
          rw [takeWhile_append_stop _ cs t hex, dropWhile_append_stop _ cs t hex]
          have hlen : (cs.dropWhile (fun d => !pyWs d)).length < (c :: cs).length :=
            Nat.lt_succ_of_le ((List.dropWhile_sublist _).length_le)
          rw [ih (cs.dropWhile (fun d => !pyWs d)) hlen]

theorem stripChars_decomp (l : List Char) :
    ∃ t, l.dropWhile pyWs = stripChars l ++ t ∧ ∀ c ∈ t, pyWs c = true := by
  refine ⟨((l.dropWhile pyWs).reverse.takeWhile pyWs).reverse, ?_, ?_⟩
  · conv_lhs => rw [← List.reverse_reverse (l.dropWhile pyWs),
      ← List.takeWhile_append_dropWhile pyWs (l.dropWhile pyWs).reverse]
    rw [List.reverse_append]
    rfl
  · intro c hc
    rw [List.mem_reverse] at hc
    exact List.mem_takeWhile_imp hc

theorem wordsWs_stripChars (l : List Char) :
    wordsWs (stripChars l) = wordsWs l := by
  obtain ⟨t, hdec, ht⟩ := stripChars_decomp l
  rw [← wordsWs_dropWhile l, hdec, wordsWs_append_ws _ t ht]

theorem stripChars_head_not_ws (l : List Char) :
    ∀ c, (stripChars l).head? = some c → pyWs c = false := by
  intro c hc
  obtain ⟨t, hdec, _⟩ := stripChars_decomp l
  have h1 : (l.dropWhile pyWs).head? = some c := by
    rw [hdec, List.head?_append, hc]
    rfl
  have h2 := List.head?_dropWhile_not pyWs l
  rw [h1] at h2
  exact h2

theorem stripChars_getLast_not_ws (l : List Char) :
    ∀ c, (stripChars l).getLast? = some c → pyWs c = false := by
  intro c hc
  unfold stripChars at hc
  rw [List.getLast?_reverse] at hc
  have h2 := List.head?_dropWhile_not pyWs (l.dropWhile pyWs).reverse
  rw [hc] at h2
  exact h2

theorem joinSp_cons_head (a : Char) (w : List Char) (ws : List (List Char)) :
    joinSp ((a :: w) :: ws) = a :: joinSp (w :: ws) := by
  cases ws with
  | nil => rfl
  | cons w2 rest => rfl

theorem collapseWs_eq (l : List Char) :
    collapseWs l =
      (if l.head?.any pyWs = true then [' '] else []) ++ joinSp (wordsWs l) ++
      (if l.getLast?.any pyWs = true ∧ wordsWs l ≠ [] then [' '] else []) := by
  induction l with
  | nil => simp [collapseWs, wordsWs_nil, joinSp]
  | cons a cs ih =>
    cases cs with
    | nil =>
      by_cases ha : pyWs a = true
      · rw [wordsWs_cons_ws _ ha, wordsWs_nil]
        simp [collapseWs, ha, joinSp]
      · rw [wordsWs_cons_not_ws _ (by simpa using ha)]
        simp [collapseWs, ha, joinSp, wordsWs_nil]
    | cons b rest =>
      by_cases ha : pyWs a = true
      · have hcoll : collapseWs (a :: b :: rest) =
            (if pyWs b = true then collapseWs (b :: rest)
             else ' ' :: collapseWs (b :: rest)) := by
          rw [collapseWs]
          simp [ha]
        by_cases hb : pyWs b = true
        · rw [hcoll, if_pos hb, ih, wordsWs_cons_ws (b :: rest) ha]
          simp [ha, hb]
        · rw [hcoll, if_neg hb, ih, wordsWs_cons_ws (b :: rest) ha]
          simp [ha, hb]
      · have hcoll : collapseWs (a :: b :: rest) = a :: collapseWs (b :: rest) := by
          rw [collapseWs]
          simp [ha]
        by_cases hb : pyWs b = true
        · have hwa : wordsWs (a :: b :: rest) = [a] :: wordsWs (b :: rest) := by
            rw [wordsWs_cons_not_ws (b :: rest) (by simpa using ha),
              List.takeWhile_cons_of_neg (by simp [hb]),
              List.dropWhile_cons_of_neg (by simp [hb])]
          rw [hcoll, ih, hwa]
          by_cases hwbr : wordsWs (b :: rest) = []
          · have hlast : (b :: rest).getLast?.any pyWs = true := by
              cases hlst : (b :: rest).getLast? with
              | none => simp at hlst
              | some d =>
                have hd : d ∈ b :: rest := List.mem_of_getLast?_eq_some hlst
                simp [all_ws_of_wordsWs_eq_nil _ hwbr d hd]
            rw [hwbr]
            simp [ha, hb, hlast, joinSp]
          · obtain ⟨w, ws2, hws⟩ : ∃ w ws2, wordsWs (b :: rest) = w :: ws2 := by
              cases h : wordsWs (b :: rest) with
              | nil => exact absurd h hwbr
              | cons w ws2 => exact ⟨w, ws2, rfl⟩
            rw [hws]
            simp [ha, hb, joinSp]
        · have hwb : wordsWs (b :: rest) =
              (b :: rest.takeWhile (fun d => !pyWs d)) ::
                wordsWs (rest.dropWhile (fun d => !pyWs d)) :=
            wordsWs_cons_not_ws rest (by simpa using hb)
          have hwa : wordsWs (a :: b :: rest) =
              (a :: b :: rest.takeWhile (fun d => !pyWs d)) ::
                wordsWs (rest.dropWhile (fun d => !pyWs d)) := by
            rw [wordsWs_cons_not_ws (b :: rest) (by simpa using ha),
              List.takeWhile_cons_of_pos (by simp [hb]),
              List.dropWhile_cons_of_pos (by simp [hb])]
          rw [hcoll, ih, hwa, hwb]
          simp [joinSp_cons_head, ha, hb]

theorem collapseWs_stripChars (l : List Char) :
    collapseWs (stripChars l) = joinSp (wordsWs l) := by
  rw [collapseWs_eq (stripChars l)]
  have h1 : (stripChars l).head?.any pyWs = false := by
    cases h : (stripChars l).head? with
    | none => rfl
    | some c => simpa using stripChars_head_not_ws l c h
  have h2 : (stripChars l).getLast?.any pyWs = false := by
    cases h : (stripChars l).getLast? with
    | none => rfl
    | some c => simpa using stripChars_getLast_not_ws l c h
  rw [wordsWs_stripChars, h1, h2]
  simp

theorem cleanseStr_eq_spec (u : Bool) (s : String) :
    cleanseStr u s = cleanseSpecStr u s := by
  unfold cleanseStr cleanseSpecStr
  rw [collapseWs_stripChars]

theorem wordsWs_sound (l : List Char) :
    ∀ w ∈ wordsWs l, w ≠ [] ∧ ∀ c ∈ w, pyWs c = false := by
  induction l using strongRecList with
  | step l ih =>
    match l with
    | [] => rw [wordsWs_nil]; simp
    | c :: cs =>
      by_cases hc : pyWs c = true
      · rw [wordsWs_cons_ws cs hc]
        exact ih cs (by simp)
      · rw [wordsWs_cons_not_ws cs (by simpa using hc)]
        intro w hw
        rcases List.mem_cons.1 hw with rfl | hw
        · refine ⟨by simp, ?_⟩
          intro d hd
          rcases List.mem_cons.1 hd with rfl | hd
          · simpa using hc
          · simpa using List.mem_takeWhile_imp hd
        · exact ih (cs.dropWhile (fun d => !pyWs d))
            (Nat.lt_succ_of_le ((List.dropWhile_sublist _).length_le)) w hw

theorem wordsWs_joinSp (W : List (List Char))
    (h : ∀ w ∈ W, w ≠ [] ∧ ∀ c ∈ w, pyWs c = false) :
    wordsWs (joinSp W) = W := by
  induction W with
  | nil => exact wordsWs_nil
  | cons w W2 ih =>
    obtain ⟨hne, hnw⟩ := h w (by simp)
    obtain ⟨a, w2, rfl⟩ : ∃ a w2, w = a :: w2 := by
      cases w with
      | nil => exact absurd rfl hne
      | cons a w2 => exact ⟨a, w2, rfl⟩
    have ha : pyWs a = false := hnw a (by simp)
    have hw2 : ∀ c ∈ w2, (fun d => !pyWs d) c = true := by
      intro d hd
      simp [hnw d (by simp [hd])]
    cases W2 with
    | nil =>
      show wordsWs (a :: w2) = [a :: w2]
      rw [wordsWs_cons_not_ws w2 ha, takeWhile_all _ w2 hw2, dropWhile_all _ w2 hw2,
        wordsWs_nil]
    | cons v V =>
      show wordsWs ((a :: w2) ++ ' ' :: joinSp (v :: V)) = (a :: w2) :: v :: V
      rw [List.cons_append, wordsWs_cons_not_ws _ ha,
        takeWhile_append_all _ w2 _ hw2, dropWhile_append_all _ w2 _ hw2,
        List.takeWhile_cons_of_neg (by simp [pyWs]), List.dropWhile_cons_of_neg (by simp [pyWs]),
        List.append_nil, wordsWs_cons_ws _ (by simp [pyWs]),
        ih (fun u hu => h u (by simp [hu]))]

theorem wordsWs_upperChars (m : List Char) :
    wordsWs (upperChars m) = (wordsWs m).map upperChars := by
  have hfun : (fun d => !pyWs d) ∘ Char.toUpper = (fun d => !pyWs d) := by
    funext d
    simp [Function.comp, pyWs_toUpper]
  induction m using strongRecList with
  | step m ih =>
    simp only [upperChars] at ih ⊢
    match m with
    | [] => rw [List.map_nil, wordsWs_nil]; rfl
    | c :: cs =>
      by_cases hc : pyWs c = true
      · rw [List.map_cons, wordsWs_cons_ws _ (by rw [pyWs_toUpper]; exact hc),
          wordsWs_cons_ws cs hc]
        exact ih cs (by simp)
      · rw [List.map_cons, wordsWs_cons_not_ws _ (by rw [pyWs_toUpper]; simpa using hc),
          wordsWs_cons_not_ws cs (by simpa using hc),
          List.takeWhile_map, List.dropWhile_map, hfun,
          ih (cs.dropWhile (fun d => !pyWs d))
            (Nat.lt_succ_of_le ((List.dropWhile_sublist _).length_le))]
        simp [upperChars]

theorem joinSp_map_upper (W : List (List Char)) :
    joinSp (W.map upperChars) = upperChars (joinSp W) := by
  induction W with
  | nil => rfl
  | cons w W2 ih =>
    cases W2 with
    | nil => rfl
    | cons v V =>
      show upperChars w ++ ' ' :: joinSp (upperChars v :: V.map upperChars) =
        upperChars (w ++ ' ' :: joinSp (v :: V))
      rw [show (upperChars v :: V.map upperChars) = (v :: V).map upperChars from rfl, ih]
      unfold upperChars
      rw [List.map_append, List.map_cons]
      norm_num [show Char.toUpper ' ' = ' ' from by decide]

theorem upperChars_idem (m : List Char) : upperChars (upperChars m) = upperChars m := by
  unfold upperChars
  rw [List.map_map]
  exact List.map_congr_left (fun c _ => toUpper_toUpper c)

theorem cleanseSpecStr_idem (u : Bool) (s : String) :
    cleanseSpecStr u (cleanseSpecStr u s) = cleanseSpecStr u s := by
  unfold cleanseSpecStr
  have hsound := wordsWs_sound s.data
  cases u with
  | false =>
    simp only [if_false, Bool.false_eq_true]
    congr 1
    rw [wordsWs_joinSp _ hsound]
  | true =>
    simp only [if_true]
    congr 1
    rw [wordsWs_upperChars, wordsWs_joinSp _ hsound, joinSp_map_upper, upperChars_idem]

theorem cleanseStr_idem (u : Bool) (s : String) :
    cleanseStr u (cleanseStr u s) = cleanseStr u s := by
  rw [cleanseStr_eq_spec, cleanseStr_eq_spec, cleanseSpecStr_idem]

theorem joinSp_filter (W : List (List Char))
    (h : ∀ w ∈ W, ∀ c ∈ w, pyWs c = false) :
    (joinSp W).filter (fun c => !pyWs c) = W.flatten := by
  induction W with
  | nil => rfl
  | cons w W2 ih =>
    have hw : (List.filter (fun c => !pyWs c) w) = w :=
      List.filter_eq_self.2 (fun c hc => by simp [h w (by simp) c hc])
    cases W2 with
    | nil => simpa [joinSp] using hw
    | cons v V =>
      show List.filter (fun c => !pyWs c) (w ++ ' ' :: joinSp (v :: V)) = _
      rw [List.filter_append, hw, List.filter_cons_of_neg (by simp [pyWs]),
        ih (fun u hu => h u (by simp [hu]))]
      rfl

theorem wordsWs_flatten (l : List Char) :
    (wordsWs l).flatten = l.filter (fun c => !pyWs c) := by
  induction l using strongRecList with
  | step l ih =>
    match l with
    | [] => rw [wordsWs_nil]; rfl
    | c :: cs =>
      by_cases hc : pyWs c = true
      · rw [wordsWs_cons_ws cs hc, List.filter_cons_of_neg (by simp [hc])]
        exact ih cs (by simp)
      · rw [wordsWs_cons_not_ws cs (by simpa using hc), List.flatten_cons,
          List.filter_cons_of_pos (by simp [hc]),
          ih (cs.dropWhile (fun d => !pyWs d))
            (Nat.lt_succ_of_le ((List.dropWhile_sublist _).length_le)),
          List.cons_append]
        congr 1
        conv_rhs => rw [← List.takeWhile_append_dropWhile (fun d => !pyWs d) cs]
        rw [List.filter_append,
          show List.filter (fun c => !pyWs c) (List.takeWhile (fun d => !pyWs d) cs) =
            List.takeWhile (fun d => !pyWs d) cs from
            List.filter_eq_self.2 (fun a ha => by
              simpa using List.mem_takeWhile_imp ha)]

theorem cleanseStr_content (s : String) :
    (cleanseStr false s).data.filter (fun c => !pyWs c) =
      s.data.filter (fun c => !pyWs c) := by
  rw [cleanseStr_eq_spec]
  show (joinSp (wordsWs s.data)).filter (fun c => !pyWs c) = _
  rw [joinSp_filter _ (fun w hw => (wordsWs_sound s.data w hw).2), wordsWs_flatten]

theorem cleanseCell_missing_iff (u : Bool) (c : Cell) :
    cleanseCell u c = .missing ↔ c = .missing := by
  cases c <;> simp [cleanseCell]

theorem cleanseCell_idem (u : Bool) (c : Cell) :
    cleanseCell u (cleanseCell u c) = cleanseCell u c := by
  cases c with
  | missing => rfl
  | str s =>
    show Cell.str (cleanseStr u (cleanseStr u s)) = _
    rw [cleanseStr_idem]
    rfl
  | int n =>
    show Cell.str (cleanseStr u (cleanseStr u (toString n))) = _
    rw [cleanseStr_idem]
    rfl

theorem cleanseCell_eq_spec (u : Bool) (c : Cell) (h : c ≠ .missing) :
    cleanseCell u c = .str (cleanseSpecStr u c.toStr) := by
  cases c with
  | missing => exact absurd rfl h
  | str s => show Cell.str (cleanseStr u s) = _; rw [cleanseStr_eq_spec]; rfl
  | int n =>
    show Cell.str (cleanseStr u (toString n)) = _
    rw [cleanseStr_eq_spec]
    rfl

theorem lookup_map_snd (f : String → Cell → Cell) (r : Row) (c : String) :
    (r.map (fun p => (p.1, f p.1 p.2))).lookup c = (r.lookup c).map (f c) := by
  induction r with
  | nil => rfl
  | cons p r ih =>
    obtain ⟨k, v⟩ := p
    by_cases h : c = k
    · subst h
      simp [List.lookup_cons]
    · have hbeq : (c == k) = false := by simpa using h
      simp [List.lookup_cons, hbeq, ih]

theorem rowGet_cleanseRow (cols : List String) (u : Bool) (r : Row) (c : String) :
    rowGet (cleanseRow cols u r) c =
      if c ∈ cols then cleanseCell u (rowGet r c) else rowGet r c := by
  unfold rowGet cleanseRow
  rw [lookup_map_snd (fun k x => if k ∈ cols then cleanseCell u x else x) r c]
  cases h : r.lookup c with
  | none =>
    by_cases hc : c ∈ cols
    · simp [hc]
      rfl
    · simp [hc]
  | some v =>
    by_cases hc : c ∈ cols
    · simp [hc]
    · simp [hc]

theorem lookup_map_keys (keys : List String) (f : String → Cell) (c : String) :
    (keys.map (fun k => (k, f k))).lookup c =
      if c ∈ keys then some (f c) else none := by
  induction keys with
  | nil => rfl
  | cons k ks ih =>
    by_cases h : c = k
    · subst h
      simp [List.lookup_cons]
    · have hbeq : (c == k) = false := by simpa using h
      simp [List.lookup_cons, hbeq, ih, h]

theorem lookup_eq_none_of_not_mem_fst (r : Row) (c : String)
    (h : c ∉ r.map Prod.fst) : r.lookup c = none := by
  rw [List.lookup_eq_none_iff]
  intro p hp
  simp only [List.mem_map] at h
  have : c ≠ p.1 := fun he => h ⟨p, hp, he.symm⟩
  simpa using this

theorem lookup_isSome_of_mem_fst (r : Row) (c : String)
    (h : c ∈ r.map Prod.fst) : (r.lookup c).isSome := by
  rw [List.lookup_isSome_iff]
  simp only [List.mem_map] at h
  obtain ⟨p, hp, he⟩ := h
  exact ⟨p, hp, by simp [he]⟩

theorem rowGet_append_left (r s : Row) (c : String) (h : c ∈ r.map Prod.fst) :
    rowGet (r ++ s) c = rowGet r c := by
  unfold rowGet
  rw [List.lookup_append]
  cases hr : r.lookup c with
  | none =>
    have := lookup_isSome_of_mem_fst r c h
    rw [hr] at this
    cases this
  | some v => rfl

theorem rowGet_append_right (r s : Row) (c : String) (h : c ∉ r.map Prod.fst) :
    rowGet (r ++ s) c = rowGet s c := by
  unfold rowGet
  rw [List.lookup_append, lookup_eq_none_of_not_mem_fst r c h]
  rfl

theorem meltRow_fst (keys : List String) (v : String) (r : Row) :
    (meltRow keys v r).map Prod.fst = keys ++ ["Name", "Value"] := by
  unfold meltRow
  rw [List.map_append, List.map_map]
  rw [show (Prod.fst ∘ fun k => (k, rowGet r k)) = id from rfl, List.map_id]
  rfl

theorem rowGet_meltRow_value (keys : List String) (v : String) (r : Row)
    (h : "Value" ∉ keys) : rowGet (meltRow keys v r) "Value" = rowGet r v := by
  unfold meltRow
  rw [rowGet_append_right _ _ _ (by
    rw [List.map_map]
    simpa using h)]
  unfold rowGet
  simp [List.lookup_cons]

theorem rowGet_meltRow_name (keys : List String) (v : String) (r : Row)
    (h : "Name" ∉ keys) : rowGet (meltRow keys v r) "Name" = Cell.str v := by
  unfold meltRow
  rw [rowGet_append_right _ _ _ (by
    rw [List.map_map]
    simpa using h)]
  unfold rowGet
  simp [List.lookup_cons]

theorem rowGet_meltRow_key (keys : List String) (v : String) (r : Row)
    (k : String) (h : k ∈ keys) : rowGet (meltRow keys v r) k = rowGet r k := by
  unfold meltRow
  rw [rowGet_append_left _ _ _ (by
    rw [List.map_map]
    simpa using h)]
  show ((keys.map fun j => (j, rowGet r j)).lookup k).getD Cell.missing = rowGet r k
  rw [lookup_map_keys keys (fun j => rowGet r j) k, if_pos h]
  rfl

theorem sum_map_add {α : Type} (l : List α) (f g : α → Nat) :
    (l.map (fun x => f x + g x)).sum = (l.map f).sum + (l.map g).sum := by
  induction l with
  | nil => rfl
  | cons a l ih =>
    simp only [List.map_cons, List.sum_cons, ih]
    omega

theorem length_filter_eq_sum {α : Type} (l : List α) (p : α → Bool) :
    (l.filter p).length = (l.map (fun x => if p x then 1 else 0)).sum := by
  induction l with
  | nil => rfl
  | cons a l ih =>
    by_cases h : p a
    · rw [List.filter_cons_of_pos h, List.map_cons, List.sum_cons, if_pos h,
        List.length_cons, ih]
      omega
    · rw [List.filter_cons_of_neg h, List.map_cons, List.sum_cons, if_neg h, ih]
      omega

theorem sum_exchange {V R : Type} (vs : List V) (rs : List R) (p : V → R → Bool) :
    (vs.map (fun v => (rs.filter (p v)).length)).sum =
      (rs.map (fun r => (vs.filter (fun v => p v r)).length)).sum := by
  induction vs with
  | nil => simp
  | cons v vs ih =>
    simp only [List.map_cons, List.sum_cons, ih]
    have h1 : ∀ r, ((v :: vs).filter (fun w => p w r)).length =
        (if p v r then 1 else 0) + (vs.filter (fun w => p w r)).length := by
      intro r
      by_cases h : p v r
      · simp [List.filter_cons, h]
        omega
      · simp [List.filter_cons, h]
    calc (rs.filter (p v)).length + (rs.map (fun r => (vs.filter (fun w => p w r)).length)).sum
        = (rs.map (fun r => if p v r then 1 else 0)).sum +
            (rs.map (fun r => (vs.filter (fun w => p w r)).length)).sum := by
          rw [← length_filter_eq_sum]
      _ = (rs.map (fun r => (if p v r then 1 else 0) +
            (vs.filter (fun w => p w r)).length)).sum := by
          rw [sum_map_add]
      _ = (rs.map (fun r => ((v :: vs).filter (fun w => p w r)).length)).sum := by
          congr 1
          exact (List.map_congr_left (fun r _ => (h1 r).symm))

theorem map_fst_filter_fst (q : Row) (key : String) :
    (q.filter (fun p => decide (p.1 ≠ key))).map Prod.fst =
      (q.map Prod.fst).filter (fun c => decide (c ≠ key)) := by
  induction q with
  | nil => rfl
  | cons p q ih =>
    by_cases h : p.1 = key
    · rw [List.filter_cons_of_neg (by simp [h]), List.map_cons,
        List.filter_cons_of_neg (by simp [h]), ih]
    · rw [List.filter_cons_of_pos (by simp [h]), List.map_cons, List.map_cons,
        List.filter_cons_of_pos (by simp [h]), ih]

theorem renameRightRow_fst (leftCols : List String) (key suffix : String) (q : Row) :
    (renameRightRow leftCols key suffix q).map Prod.fst =
      rightColsRenamed leftCols (q.map Prod.fst) key suffix := by
  unfold renameRightRow rightColsRenamed
  rw [List.map_map,
    show (Prod.fst ∘ fun p : String × Cell => (renameRightCol leftCols suffix p.1, p.2)) =
      ((renameRightCol leftCols suffix) ∘ Prod.fst) from funext (fun p => rfl),
    ← List.map_map, map_fst_filter_fst]

theorem cleanseRow_fst (cols : List String) (u : Bool) (r : Row) :
    (cleanseRow cols u r).map Prod.fst = r.map Prod.fst := by
  unfold cleanseRow
  rw [List.map_map]
  rfl

theorem mergeDF_ok (left right : DataFrame) (key : String) (leftJoin : Bool)
    (suffix : String) (out : DataFrame)
    (hok : mergeDF left right key leftJoin suffix = .ok out) :
    out = ⟨left.cols ++ rightColsRenamed left.cols right.cols key suffix,
      (left.rows.map (fun r =>
        let ms := matchRows right key (rowGet r key)
        if leftJoin = true ∧ ms = [] then
          [r ++ (rightColsRenamed left.cols right.cols key suffix).map
            (fun c => (c, Cell.missing))]
        else ms.map (fun q => r ++ renameRightRow left.cols key suffix q))).flatten⟩ := by
  unfold mergeDF at hok
  split at hok
  · cases hok
    rfl
  · cases hok

theorem mergeDF_ok_key (left right : DataFrame) (key : String) (leftJoin : Bool)
    (suffix : String) (out : DataFrame)
    (hok : mergeDF left right key leftJoin suffix = .ok out) :
    key ∈ left.cols ∧ key ∈ right.cols := by
  unfold mergeDF at hok
  split at hok
  · assumption
  · cases hok

theorem mergeDF_cols (left right : DataFrame) (key : String) (leftJoin : Bool)
    (suffix : String) (out : DataFrame)
    (hok : mergeDF left right key leftJoin suffix = .ok out) :
    out.cols = left.cols ++ rightColsRenamed left.cols right.cols key suffix := by
  rw [mergeDF_ok left right key leftJoin suffix out hok]

theorem mergeDF_rows_length (left right : DataFrame) (key : String)
    (leftJoin : Bool) (suffix : String) (out : DataFrame)
    (hok : mergeDF left right key leftJoin suffix = .ok out) :
    out.rows.length = (left.rows.map (fun r =>
      let n := (matchRows right key (rowGet r key)).length
      if leftJoin = true ∧ n = 0 then 1 else n)).sum := by
  rw [mergeDF_ok left right key leftJoin suffix out hok]
  show ((left.rows.map _).flatten).length = _
  rw [List.length_flatten, List.map_map]
  congr 1
  apply List.map_congr_left
  intro r _
  simp only [Function.comp]
  by_cases h : leftJoin = true ∧ matchRows right key (rowGet r key) = []
  · rw [if_pos h, if_pos ⟨h.1, by rw [h.2]; rfl⟩]
    rfl
  · rw [if_neg h, if_neg (by
      intro hc
      exact h ⟨hc.1, List.length_eq_zero.1 hc.2⟩), List.length_map]

theorem mergeDF_mem_elim (left right : DataFrame) (key : String) (leftJoin : Bool)
    (suffix : String) (out : DataFrame)
    (hok : mergeDF left right key leftJoin suffix = .ok out) :
    ∀ a ∈ out.rows, ∃ r ∈ left.rows,
      (∃ q ∈ right.rows, rowGet q key = rowGet r key ∧
        a = r ++ renameRightRow left.cols key suffix q) ∨
      (leftJoin = true ∧ matchRows right key (rowGet r key) = [] ∧
        a = r ++ (rightColsRenamed left.cols right.cols key suffix).map
          (fun c => (c, Cell.missing))) := by
  rw [mergeDF_ok left right key leftJoin suffix out hok]
  intro a ha
  simp only [List.mem_flatten, List.mem_map] at ha
  obtain ⟨sub, ⟨r, hr, hsub⟩, hasub⟩ := ha
  refine ⟨r, hr, ?_⟩
  rw [← hsub] at hasub
  by_cases h : leftJoin = true ∧ matchRows right key (rowGet r key) = []
  · rw [if_pos h] at hasub
    simp only [List.mem_singleton] at hasub
    exact Or.inr ⟨h.1, h.2, hasub⟩
  · rw [if_neg h] at hasub
    simp only [List.mem_map] at hasub
    obtain ⟨q, hq, ha2⟩ := hasub
    unfold matchRows at hq
    rw [List.mem_filter] at hq
    exact Or.inl ⟨q, hq.1, by simpa using hq.2, ha2.symm⟩

theorem mergeDF_mem_match (left right : DataFrame) (key : String) (leftJoin : Bool)
    (suffix : String) (out : DataFrame)
    (hok : mergeDF left right key leftJoin suffix = .ok out)
    (r : Row) (hr : r ∈ left.rows) (q : Row) (hq : q ∈ right.rows)
    (hmatch : rowGet q key = rowGet r key) :
    r ++ renameRightRow left.cols key suffix q ∈ out.rows := by
  rw [mergeDF_ok left right key leftJoin suffix out hok]
  simp only [List.mem_flatten, List.mem_map]
  have hqm : q ∈ matchRows right key (rowGet r key) := by
    unfold matchRows
    rw [List.mem_filter]
    exact ⟨hq, by simpa using hmatch⟩
  refine ⟨_, ⟨r, hr, rfl⟩, ?_⟩
  rw [if_neg (fun hc => by rw [hc.2] at hqm; cases hqm)]
  exact List.mem_map_of_mem _ hqm

theorem mergeDF_mem_null (left right : DataFrame) (key : String)
    (suffix : String) (out : DataFrame)
    (hok : mergeDF left right key true suffix = .ok out)
    (r : Row) (hr : r ∈ left.rows)
    (hms : matchRows right key (rowGet r key) = []) :
    r ++ (rightColsRenamed left.cols right.cols key suffix).map
      (fun c => (c, Cell.missing)) ∈ out.rows := by
  rw [mergeDF_ok left right key true suffix out hok]
  simp only [List.mem_flatten, List.mem_map]
  refine ⟨_, ⟨r, hr, rfl⟩, ?_⟩
  rw [if_pos (by exact ⟨by trivial, hms⟩)]
  simp

/-- C1: for every column of optionally-missing values and every case-fold
flag, cleanse_series returns a column of equal length and index alignment in
which a cell is missing in the output iff it was missing in the input, and
every present cell equals the string representation of the input cell with
the ends trimmed, every internal whitespace run collapsed to one ASCII space,
and upper-cased exactly when the flag is set (the spec-side normal form
cleanseSpecStr). -/
theorem c1_cleanse_series_contract (xs : List Cell) (u : Bool) :
    (cleanse_series xs u).length = xs.length ∧
    ∀ i, i < xs.length →
      (((cleanse_series xs u).getD i Cell.missing = Cell.missing) ↔
        (xs.getD i Cell.missing = Cell.missing)) ∧
      (xs.getD i Cell.missing ≠ Cell.missing →
        (cleanse_series xs u).getD i Cell.missing =
          Cell.str (cleanseSpecStr u (xs.getD i Cell.missing).toStr)) := by
  constructor
  · exact List.length_map xs _
  · intro i _
    have hgd : (cleanse_series xs u).getD i Cell.missing =
        cleanseCell u (xs.getD i Cell.missing) := by
      unfold cleanse_series
      rw [List.getD_eq_getElem?_getD, List.getD_eq_getElem?_getD, List.getElem?_map]
      cases h : xs[i]? with
      | none => rfl
      | some a => rfl
    rw [hgd]
    exact ⟨cleanseCell_missing_iff u _, fun h => cleanseCell_eq_spec u _ h⟩

theorem c1_cleanse_series_contract_witness :
    (0 < 2 ∧ (([Cell.str "  a  b ", Cell.missing].getD 0 Cell.missing) ≠ Cell.missing)) ∧
    (cleanse_series [Cell.str "  a  b ", Cell.missing] true).getD 0 Cell.missing =
      Cell.str (cleanseSpecStr true ([Cell.str "  a  b ", Cell.missing].getD 0 Cell.missing).toStr) := by
  refine ⟨⟨by decide, by decide⟩, ?_⟩
  exact ((c1_cleanse_series_contract [Cell.str "  a  b ", Cell.missing] true).2 0
    (by decide)).2 (by decide)

/-- C6: cleansing is idempotent: applying cleanse_series twice with the same
flag yields the same column as applying it once. -/
theorem c6_cleanse_idempotent (xs : List Cell) (u : Bool) :
    cleanse_series (cleanse_series xs u) u = cleanse_series xs u := by
  unfold cleanse_series
  rw [List.map_map]
  exact List.map_congr_left (fun c _ => cleanseCell_idem u c)

theorem cleanse_df_nil (df : DataFrame) (u : Bool) : cleanse_df df [] u = df := by
  unfold cleanse_df cleanseRow
  cases df with
  | mk cols rows =>
    simp

theorem pruneResponses_cols_subset (d : DataFrame) (dl : Option (List String)) :
    (pruneResponses d dl).cols ⊆ d.cols := by
  cases dl with
  | none => exact fun c h => h
  | some ds =>
    show (if ds.isEmpty = true then d else dropCols d ds).cols ⊆ d.cols
    by_cases h : ds.isEmpty
    · rw [if_pos h]
      exact fun c hc => hc
    · rw [if_neg h]
      exact fun c hc => List.mem_of_mem_filter hc

theorem melt_ok (df : DataFrame) (keys dataCols : List String)
    (hv : "Value" ∉ df.cols) :
    melt df keys dataCols = .ok ⟨keys ++ ["Name", "Value"],
      (dataCols.map (fun v => df.rows.map (meltRow keys v))).flatten⟩ := by
  unfold melt
  rw [if_neg hv]

theorem reshapeResponses_ok (df : DataFrame) (kl : Option (List String))
    (hv : "Value" ∉ df.cols) :
    reshapeResponses df kl = .ok (filterValueNotNa
      ⟨keysOf df.cols (kl.getD defaultKeyFields) ++ ["Name", "Value"],
       ((dataColsOf df.cols (keysOf df.cols (kl.getD defaultKeyFields))).map
         (fun v => df.rows.map (meltRow (keysOf df.cols (kl.getD defaultKeyFields)) v))).flatten⟩) := by
  show Except.map filterValueNotNa
    (melt df (keysOf df.cols (kl.getD defaultKeyFields))
      (dataColsOf df.cols (keysOf df.cols (kl.getD defaultKeyFields)))) = _
  rw [melt_ok _ _ _ hv]
  rfl

theorem keysOf_idem (cols keyFields : List String) :
    keysOf cols (keysOf cols keyFields) = keysOf cols keyFields := by
  unfold keysOf
  rw [List.filter_filter]
  exact List.filter_congr (fun c _ => by simp)

theorem filterValueNotNa_length (keys : List String) (dataCols : List String)
    (rows : List Row) (hvk : "Value" ∉ keys) :
    (filterValueNotNa ⟨keys ++ ["Name", "Value"],
      (dataCols.map (fun v => rows.map (meltRow keys v))).flatten⟩).rows.length =
      (rows.map (fun r =>
        (dataCols.filter (fun v => decide (rowGet r v ≠ Cell.missing))).length)).sum := by
  unfold filterValueNotNa
  show (List.filter _ ((dataCols.map (fun v => rows.map (meltRow keys v))).flatten)).length = _
  rw [List.filter_flatten, List.map_map, List.length_flatten, List.map_map]
  rw [← sum_exchange dataCols rows (fun v r => decide (rowGet r v ≠ Cell.missing))]
  congr 1
  apply List.map_congr_left
  intro v _
  simp only [Function.comp]
  rw [List.filter_map]
  rw [List.length_map]
  congr 1
  apply List.filter_congr
  intro r _
  simp only [Function.comp]
  rw [rowGet_meltRow_value keys v r hvk]

/-- C2: for every response table, key-field configuration and drop list,
configured key fields absent from the pruned table are silently dropped from
the key set (restricting the key list to present columns changes nothing and
no error arises), the remaining non-key columns are the value columns, and
the reshaped long table has exactly one row per non-missing (row, value
column) cell.  The hypothesis excludes a response column literally named
Value, on which pandas melt raises instead of reshaping. -/
theorem c2_reshape_contract (responses : DataFrame) (dl kl : Option (List String))
    (hv : "Value" ∉ responses.cols) :
    ∃ long, reshapeResponses (pruneResponses (cleanse_df responses [] false) dl) kl =
        .ok long ∧
      reshapeResponses (pruneResponses (cleanse_df responses [] false) dl)
        (some (keysOf (pruneResponses (cleanse_df responses [] false) dl).cols
          (kl.getD defaultKeyFields))) = .ok long ∧
      long.rows.length =
        ((pruneResponses (cleanse_df responses [] false) dl).rows.map (fun r =>
          ((dataColsOf (pruneResponses (cleanse_df responses [] false) dl).cols
            (keysOf (pruneResponses (cleanse_df responses [] false) dl).cols
              (kl.getD defaultKeyFields))).filter
            (fun v => decide (rowGet r v ≠ Cell.missing))).length)).sum := by
  rw [cleanse_df_nil]
  have hv2 : "Value" ∉ (pruneResponses responses dl).cols :=
    fun h => hv (pruneResponses_cols_subset responses dl h)
  have hvk : "Value" ∉ keysOf (pruneResponses responses dl).cols (kl.getD defaultKeyFields) := by
    intro h
    unfold keysOf at h
    exact hv2 (by simpa using (List.mem_filter.1 h).2)
  refine ⟨_, reshapeResponses_ok _ kl hv2, ?_, ?_⟩
  · rw [reshapeResponses_ok _ _ hv2]
    simp only [Option.getD_some]
    rw [keysOf_idem]
  · rw [filterValueNotNa_length _ _ _ hvk]

theorem c2_reshape_contract_witness :
    ("Value" ∉ c8Responses.cols) ∧
    ∃ long, reshapeResponses (pruneResponses (cleanse_df c8Responses [] false) none)
        (some ["Respondent"]) = .ok long ∧
      reshapeResponses (pruneResponses (cleanse_df c8Responses [] false) none)
        (some (keysOf (pruneResponses (cleanse_df c8Responses [] false) none).cols
          ((some ["Respondent"]).getD defaultKeyFields))) = .ok long ∧
      long.rows.length =
        ((pruneResponses (cleanse_df c8Responses [] false) none).rows.map (fun r =>
          ((dataColsOf (pruneResponses (cleanse_df c8Responses [] false) none).cols
            (keysOf (pruneResponses (cleanse_df c8Responses [] false) none).cols
              ((some ["Respondent"]).getD defaultKeyFields))).filter
            (fun v => decide (rowGet r v ≠ Cell.missing))).length)).sum :=
  ⟨by decide, c2_reshape_contract c8Responses none (some ["Respondent"]) (by decide)⟩

/-- C3: Stage A is an inner join on Name: every output row carries a Name
equal, after cleansing, to the Name of some metadata row; the output has
exactly one row per (long row, matching metadata row) pair, so unmatched
long rows are dropped and a long row matching k metadata rows appears k
times; and every match contributes its fanned-out row. -/
theorem c3_stageA_conservation (long recon : DataFrame)
    (hNl : "Name" ∈ long.cols) (hNr : "Name" ∈ recon.cols) (hwf : long.WF) :
    ∃ A, stageA long recon = .ok A ∧
      (∀ a ∈ A.rows, ∃ q ∈ recon.rows,
        rowGet a "Name" = cleanseCell true (rowGet q "Name")) ∧
      A.rows.length = (long.rows.map (fun r =>
        (recon.rows.filter (fun q =>
          decide (cleanseCell true (rowGet q "Name") = rowGet r "Name"))).length)).sum ∧
      (∀ r ∈ long.rows, ∀ q ∈ recon.rows,
        cleanseCell true (rowGet q "Name") = rowGet r "Name" →
        (r ++ renameRightRow long.cols "Name" "_recon"
          (cleanseRow reconColsToClean true q)) ∈ A.rows) := by
  have hname : ("Name" : String) ∈ reconColsToClean := by simp [reconColsToClean]
  have hcl : ∀ q : Row, rowGet (cleanseRow reconColsToClean true q) "Name" =
      cleanseCell true (rowGet q "Name") := by
    intro q
    rw [rowGet_cleanseRow, if_pos hname]
  obtain ⟨A, hok⟩ : ∃ A, stageA long recon = .ok A := by
    unfold stageA mergeDF
    rw [if_pos ⟨hNl, hNr⟩]
    exact ⟨_, rfl⟩
  have hokm : mergeDF long (cleanse_df recon reconColsToClean true) "Name" false
      "_recon" = .ok A := hok
  refine ⟨A, hok, ?_, ?_, ?_⟩
  · intro a ha
    obtain ⟨r, hr, hcase⟩ := mergeDF_mem_elim _ _ _ _ _ _ hokm a ha
    rcases hcase with ⟨q2, hq2, hmatch, hae⟩ | ⟨hfalse, _, _⟩
    · obtain ⟨q, hq, rfl⟩ : ∃ q ∈ recon.rows, cleanseRow reconColsToClean true q = q2 := by
        have hq2m : q2 ∈ recon.rows.map (cleanseRow reconColsToClean true) := hq2
        simpa using hq2m
      refine ⟨q, hq, ?_⟩
      rw [hae, rowGet_append_left _ _ _ (by rw [hwf r hr]; exact hNl), ← hmatch, hcl q]
    · cases hfalse
  · rw [mergeDF_rows_length _ _ _ _ _ _ hokm]
    congr 1
    apply List.map_congr_left
    intro r _
    simp only [Bool.false_eq_true, false_and, if_false]
    unfold matchRows
    show (List.filter _ ((cleanse_df recon reconColsToClean true).rows)).length = _
    show (List.filter _ (recon.rows.map (cleanseRow reconColsToClean true))).length = _
    rw [List.filter_map, List.length_map]
    congr 1
    apply List.filter_congr
    intro q _
    simp only [Function.comp]
    rw [hcl q]
  · intro r hr q hq hmatch
    exact mergeDF_mem_match _ _ _ _ _ _ hokm r hr _
      (by exact List.mem_map_of_mem _ hq) (by rw [hcl q, hmatch])

theorem c3_stageA_conservation_witness :
    (("Name" : String) ∈ (⟨["Respondent", "Name", "Value"],
        [[("Respondent", Cell.str "R1"), ("Name", Cell.str "Q1"),
          ("Value", Cell.str " yes ")]]⟩ : DataFrame).cols ∧
      ("Name" : String) ∈ c8Recon.cols ∧
      (⟨["Respondent", "Name", "Value"],
        [[("Respondent", Cell.str "R1"), ("Name", Cell.str "Q1"),
          ("Value", Cell.str " yes ")]]⟩ : DataFrame).WF) ∧
    (∃ A, stageA ⟨["Respondent", "Name", "Value"],
        [[("Respondent", Cell.str "R1"), ("Name", Cell.str "Q1"),
          ("Value", Cell.str " yes ")]]⟩ c8Recon = .ok A ∧
      (∀ a ∈ A.rows, ∃ q ∈ c8Recon.rows,
        rowGet a "Name" = cleanseCell true (rowGet q "Name")) ∧
      A.rows.length = ((⟨["Respondent", "Name", "Value"],
        [[("Respondent", Cell.str "R1"), ("Name", Cell.str "Q1"),
          ("Value", Cell.str " yes ")]]⟩ : DataFrame).rows.map (fun r =>
        (c8Recon.rows.filter (fun q =>
          decide (cleanseCell true (rowGet q "Name") = rowGet r "Name"))).length)).sum ∧
      (∀ r ∈ (⟨["Respondent", "Name", "Value"],
        [[("Respondent", Cell.str "R1"), ("Name", Cell.str "Q1"),
          ("Value", Cell.str " yes ")]]⟩ : DataFrame).rows, ∀ q ∈ c8Recon.rows,
        cleanseCell true (rowGet q "Name") = rowGet r "Name" →
        (r ++ renameRightRow (⟨["Respondent", "Name", "Value"],
          [[("Respondent", Cell.str "R1"), ("Name", Cell.str "Q1"),
            ("Value", Cell.str " yes ")]]⟩ : DataFrame).cols "Name" "_recon"
          (cleanseRow reconColsToClean true q)) ∈ A.rows)) :=
  ⟨⟨by decide, by decide, by decide⟩,
    c3_stageA_conservation _ c8Recon (by decide) (by decide) (by decide)⟩

theorem length_le_sum_map {α : Type} (l : List α) (f : α → Nat)
    (h : ∀ x ∈ l, 1 ≤ f x) : l.length ≤ (l.map f).sum := by
  induction l with
  | nil => simp
  | cons a l ih =>
    simp only [List.map_cons, List.sum_cons, List.length_cons]
    have h1 := h a (by simp)
    have h2 := ih (fun x hx => h x (by simp [hx]))
    omega

theorem sum_map_eq_length {α : Type} (l : List α) (f : α → Nat)
    (h : ∀ x ∈ l, f x = 1) : (l.map f).sum = l.length := by
  induction l with
  | nil => simp
  | cons a l ih =>
    simp only [List.map_cons, List.sum_cons, List.length_cons,
      h a (by simp), ih (fun x hx => h x (by simp [hx]))]
    omega

theorem filter_length_le_one_of_nodup {α β : Type} [DecidableEq β]
    (l : List α) (f : α → β) (hn : (l.map f).Nodup) (v : β) :
    (l.filter (fun x => decide (f x = v))).length ≤ 1 := by
  induction l with
  | nil => simp
  | cons a l ih =>
    rw [List.map_cons, List.nodup_cons] at hn
    by_cases h : f a = v
    · rw [List.filter_cons_of_pos (by simpa using h), List.length_cons]
      have : l.filter (fun x => decide (f x = v)) = [] := by
        rw [List.filter_eq_nil_iff]
        intro x hx
        simp only [decide_eq_true_eq]
        intro he
        have hax : f a = f x := by rw [h, he]
        exact hn.1 (by rw [hax]; exact List.mem_map_of_mem f hx)
      rw [this]
      simp
    · rw [List.filter_cons_of_neg (by simpa using h)]
      exact ih hn.2

/-- C4: Stage B is a left join of the (Value-cleansed) Stage A table with the
(Value-cleansed) numeric table: the output row count is at least the Stage A
row count, with equality whenever the numeric Value column has no duplicate
cleansed values; every Stage A row survives as the prefix of some output row
(after its Value cell is cleansed for the join, which is how the source
feeds Stage B); and a Stage A row with no numeric match appears extended by
null numeric columns instead of being dropped. -/
theorem c4_stageB_left_join (A numerical : DataFrame)
    (hVA : "Value" ∈ A.cols) (hVn : "Value" ∈ numerical.cols) :
    ∃ B, stageB A numerical = .ok B ∧
      A.rows.length ≤ B.rows.length ∧
      ((numerical.rows.map (fun q => cleanseCell true (rowGet q "Value"))).Nodup →
        B.rows.length = A.rows.length) ∧
      (∀ r ∈ A.rows, ∃ t, (cleanseRow ["Value"] true r ++ t) ∈ B.rows) ∧
      (∀ r ∈ A.rows,
        matchRows (cleanse_df numerical ["Value"] true) "Value"
          (rowGet (cleanseRow ["Value"] true r) "Value") = [] →
        (cleanseRow ["Value"] true r ++
          (rightColsRenamed A.cols numerical.cols "Value" "_num").map
            (fun c => (c, Cell.missing))) ∈ B.rows) := by
  have hclv : ∀ q : Row, rowGet (cleanseRow ["Value"] true q) "Value" =
      cleanseCell true (rowGet q "Value") := by
    intro q
    rw [rowGet_cleanseRow, if_pos (by simp)]
  obtain ⟨B, hok⟩ : ∃ B, stageB A numerical = .ok B := by
    unfold stageB mergeDF
    rw [if_pos ⟨hVA, hVn⟩]
    exact ⟨_, rfl⟩
  have hokm : mergeDF (cleanse_df A ["Value"] true) (cleanse_df numerical ["Value"] true)
      "Value" true "_num" = .ok B := hok
  have hlen := mergeDF_rows_length _ _ _ _ _ _ hokm
  have hrowsA : (cleanse_df A ["Value"] true).rows =
      A.rows.map (cleanseRow ["Value"] true) := rfl
  refine ⟨B, hok, ?_, ?_, ?_, ?_⟩
  · rw [hlen, hrowsA, List.map_map]
    have := length_le_sum_map A.rows
      ((fun r =>
        let n := (matchRows (cleanse_df numerical ["Value"] true) "Value" (rowGet r "Value")).length
        if true = true ∧ n = 0 then 1 else n) ∘ cleanseRow ["Value"] true)
      (by
        intro r _
        simp only [Function.comp]
        by_cases h : (matchRows (cleanse_df numerical ["Value"] true) "Value"
            (rowGet (cleanseRow ["Value"] true r) "Value")).length = 0
        · rw [if_pos (by exact ⟨by trivial, h⟩)]
        · rw [if_neg (fun hc => h hc.2)]
          omega)
    exact this
  · intro hnodup
    rw [hlen, hrowsA, List.map_map]
    have hmapval : ((cleanse_df numerical ["Value"] true).rows.map
        (fun q => rowGet q "Value")).Nodup := by
      show ((numerical.rows.map (cleanseRow ["Value"] true)).map
        (fun q => rowGet q "Value")).Nodup
      rw [List.map_map]
      have : ((fun q : Row => rowGet q "Value") ∘ cleanseRow ["Value"] true) =
          (fun q => cleanseCell true (rowGet q "Value")) := funext (fun q => hclv q)
      rw [this]
      exact hnodup
    have hle1 : ∀ v, (matchRows (cleanse_df numerical ["Value"] true) "Value" v).length ≤ 1 := by
      intro v
      unfold matchRows
      exact filter_length_le_one_of_nodup _ (fun q => rowGet q "Value") hmapval v
    exact sum_map_eq_length A.rows _ (by
      intro r _
      simp only [Function.comp]
      by_cases h : (matchRows (cleanse_df numerical ["Value"] true) "Value"
          (rowGet (cleanseRow ["Value"] true r) "Value")).length = 0
      · rw [if_pos (by exact ⟨by trivial, h⟩)]
      · rw [if_neg (fun hc => h hc.2)]
        have := hle1 (rowGet (cleanseRow ["Value"] true r) "Value")
        omega)
  · intro r hr
    have hrA : cleanseRow ["Value"] true r ∈ (cleanse_df A ["Value"] true).rows := by
      rw [hrowsA]
      exact List.mem_map_of_mem _ hr
    cases hms : matchRows (cleanse_df numerical ["Value"] true) "Value"
        (rowGet (cleanseRow ["Value"] true r) "Value") with
    | nil =>
      exact ⟨_, mergeDF_mem_null _ _ _ _ _ hokm _ hrA hms⟩
    | cons q ms =>
      have hqmem : q ∈ matchRows (cleanse_df numerical ["Value"] true) "Value"
          (rowGet (cleanseRow ["Value"] true r) "Value") := by
        rw [hms]
        simp
      unfold matchRows at hqmem
      rw [List.mem_filter] at hqmem
      exact ⟨_, mergeDF_mem_match _ _ _ _ _ _ hokm _ hrA q hqmem.1
        (by simpa using hqmem.2)⟩
  · intro r hr hms
    have hrA : cleanseRow ["Value"] true r ∈ (cleanse_df A ["Value"] true).rows := by
      rw [hrowsA]
      exact List.mem_map_of_mem _ hr
    exact mergeDF_mem_null _ _ _ _ _ hokm _ hrA hms

theorem c4_stageB_left_join_witness :
    (("Value" : String) ∈ (⟨["Respondent", "Name", "Value", "Section"],
        [[("Respondent", Cell.str "R1"), ("Name", Cell.str "Q1"),
          ("Value", Cell.str " yes "), ("Section", Cell.str "A")]]⟩ : DataFrame).cols ∧
      ("Value" : String) ∈ c8Numerical.cols) ∧
    (∃ B, stageB ⟨["Respondent", "Name", "Value", "Section"],
        [[("Respondent", Cell.str "R1"), ("Name", Cell.str "Q1"),
          ("Value", Cell.str " yes "), ("Section", Cell.str "A")]]⟩ c8Numerical = .ok B ∧
      (⟨["Respondent", "Name", "Value", "Section"],
        [[("Respondent", Cell.str "R1"), ("Name", Cell.str "Q1"),
          ("Value", Cell.str " yes "), ("Section", Cell.str "A")]]⟩ : DataFrame).rows.length ≤
        B.rows.length ∧
      ((c8Numerical.rows.map (fun q => cleanseCell true (rowGet q "Value"))).Nodup →
        B.rows.length = (⟨["Respondent", "Name", "Value", "Section"],
          [[("Respondent", Cell.str "R1"), ("Name", Cell.str "Q1"),
            ("Value", Cell.str " yes "), ("Section", Cell.str "A")]]⟩ : DataFrame).rows.length) ∧
      (∀ r ∈ (⟨["Respondent", "Name", "Value", "Section"],
          [[("Respondent", Cell.str "R1"), ("Name", Cell.str "Q1"),
            ("Value", Cell.str " yes "), ("Section", Cell.str "A")]]⟩ : DataFrame).rows,
        ∃ t, (cleanseRow ["Value"] true r ++ t) ∈ B.rows) ∧
      (∀ r ∈ (⟨["Respondent", "Name", "Value", "Section"],
          [[("Respondent", Cell.str "R1"), ("Name", Cell.str "Q1"),
            ("Value", Cell.str " yes "), ("Section", Cell.str "A")]]⟩ : DataFrame).rows,
        matchRows (cleanse_df c8Numerical ["Value"] true) "Value"
          (rowGet (cleanseRow ["Value"] true r) "Value") = [] →
        (cleanseRow ["Value"] true r ++
          (rightColsRenamed (⟨["Respondent", "Name", "Value", "Section"],
            [[("Respondent", Cell.str "R1"), ("Name", Cell.str "Q1"),
              ("Value", Cell.str " yes "), ("Section", Cell.str "A")]]⟩ : DataFrame).cols
            c8Numerical.cols "Value" "_num").map
            (fun c => (c, Cell.missing))) ∈ B.rows)) :=
  ⟨⟨by decide, by decide⟩, c4_stageB_left_join _ c8Numerical (by decide) (by decide)⟩

theorem build_qc_output_eq (responses recon numerical : DataFrame)
    (dl kl : Option (List String)) :
    build_qc_output responses recon numerical dl kl =
      (reshapeResponses (pruneResponses (cleanse_df responses [] false) dl) kl).bind
        (fun long => (stageA (cleanseLong long) recon).bind
          (fun joined => stageB joined numerical)) := rfl

theorem reshapeResponses_err (df : DataFrame) (kl : Option (List String))
    (hv : "Value" ∈ df.cols) :
    reshapeResponses df kl =
      .error "ValueError: value_name cannot match an element in the frame columns" := by
  show Except.map filterValueNotNa
    (melt df (keysOf df.cols (kl.getD defaultKeyFields))
      (dataColsOf df.cols (keysOf df.cols (kl.getD defaultKeyFields)))) = _
  unfold melt
  rw [if_pos hv]
  rfl

theorem reshapeResponses_cols (df : DataFrame) (kl : Option (List String))
    (long : DataFrame) (hok : reshapeResponses df kl = .ok long) :
    long.cols = keysOf df.cols (kl.getD defaultKeyFields) ++ ["Name", "Value"] := by
  have hok2 : Except.map filterValueNotNa
      (melt df (keysOf df.cols (kl.getD defaultKeyFields))
        (dataColsOf df.cols (keysOf df.cols (kl.getD defaultKeyFields)))) =
      .ok long := hok
  unfold melt at hok2
  by_cases hv : "Value" ∈ df.cols
  · rw [if_pos hv] at hok2
    cases hok2
  · rw [if_neg hv] at hok2
    replace hok2 : Except.ok (filterValueNotNa
        ⟨keysOf df.cols (kl.getD defaultKeyFields) ++ ["Name", "Value"],
         ((dataColsOf df.cols (keysOf df.cols (kl.getD defaultKeyFields))).map
           (fun v => df.rows.map (meltRow (keysOf df.cols (kl.getD defaultKeyFields)) v))).flatten⟩) =
        Except.ok long := hok2
    cases hok2
    rfl

theorem reshapeResponses_rows_mem (df : DataFrame) (kl : Option (List String))
    (long : DataFrame) (hok : reshapeResponses df kl = .ok long) :
    ∀ a ∈ long.rows,
      rowGet a "Value" ≠ Cell.missing ∧
      ∃ v ∈ dataColsOf df.cols (keysOf df.cols (kl.getD defaultKeyFields)),
        ∃ r ∈ df.rows, a = meltRow (keysOf df.cols (kl.getD defaultKeyFields)) v r := by
  have hok2 : Except.map filterValueNotNa
      (melt df (keysOf df.cols (kl.getD defaultKeyFields))
        (dataColsOf df.cols (keysOf df.cols (kl.getD defaultKeyFields)))) =
      .ok long := hok
  unfold melt at hok2
  by_cases hv : "Value" ∈ df.cols
  · rw [if_pos hv] at hok2
    cases hok2
  · rw [if_neg hv] at hok2
    replace hok2 : Except.ok (filterValueNotNa
        ⟨keysOf df.cols (kl.getD defaultKeyFields) ++ ["Name", "Value"],
         ((dataColsOf df.cols (keysOf df.cols (kl.getD defaultKeyFields))).map
           (fun v => df.rows.map (meltRow (keysOf df.cols (kl.getD defaultKeyFields)) v))).flatten⟩) =
        Except.ok long := hok2
    cases hok2
    intro a ha
    have ha2 : a ∈ List.filter
        (fun r => decide (rowGet r "Value" ≠ Cell.missing))
        (((dataColsOf df.cols (keysOf df.cols (kl.getD defaultKeyFields))).map
          (fun v => df.rows.map (meltRow (keysOf df.cols (kl.getD defaultKeyFields)) v))).flatten) := ha
    rw [List.mem_filter] at ha2
    refine ⟨by simpa using ha2.2, ?_⟩
    have ha3 := ha2.1
    simp only [List.mem_flatten, List.mem_map] at ha3
    obtain ⟨sub, ⟨v, hv2, hsub⟩, hasub⟩ := ha3
    rw [← hsub] at hasub
    simp only [List.mem_map] at hasub
    obtain ⟨r, hr, ha4⟩ := hasub
    exact ⟨v, hv2, r, hr, ha4.symm⟩

theorem stageA_ok_exists (long recon : DataFrame) (hNl : "Name" ∈ long.cols)
    (hNr : "Name" ∈ recon.cols) : ∃ A, stageA long recon = .ok A := by
  unfold stageA mergeDF
  rw [if_pos ⟨hNl, hNr⟩]
  exact ⟨_, rfl⟩

theorem stageA_err (long recon : DataFrame) (hNr : "Name" ∉ recon.cols) :
    stageA long recon = .error ("KeyError: " ++ "Name") := by
  unfold stageA mergeDF
  rw [if_neg (fun hc => hNr hc.2)]

theorem stageB_ok_exists (joined numerical : DataFrame)
    (hj : "Value" ∈ joined.cols) (hn : "Value" ∈ numerical.cols) :
    ∃ B, stageB joined numerical = .ok B := by
  unfold stageB mergeDF
  rw [if_pos ⟨hj, hn⟩]
  exact ⟨_, rfl⟩

theorem build_qc_output_chain (responses recon numerical : DataFrame)
    (dl kl : Option (List String)) (long : DataFrame)
    (hre : reshapeResponses (pruneResponses responses dl) kl = .ok long) :
    build_qc_output responses recon numerical dl kl =
      (stageA (cleanseLong long) recon).bind
        (fun joined => stageB joined numerical) := by
  rw [build_qc_output_eq, cleanse_df_nil, hre]
  rfl

theorem build_qc_output_reshape_err (responses recon numerical : DataFrame)
    (dl kl : Option (List String)) (e : String)
    (hre : reshapeResponses (pruneResponses responses dl) kl = .error e) :
    build_qc_output responses recon numerical dl kl = .error e := by
  rw [build_qc_output_eq, cleanse_df_nil, hre]
  rfl

/-- C5 counterexample: on a metadata table with no Name column, the Stage A
join raises a KeyError; the pipeline surfaces a join error, not a reshape
error, so the join stages are not error-free for every combination of input
tables. -/
theorem c5_counterexample :
    build_qc_output ⟨["Respondent", "Q1"],
        [[("Respondent", Cell.str "r1"), ("Q1", Cell.str "yes")]]⟩
      ⟨[], []⟩ c8Numerical none none = .error "KeyError: Name" := by
  rfl

/-- C5 amended: whenever the pipeline succeeds, the pruned response table
had no column named Value, the metadata table had a Name column and the
numeric table had a Value column — so the surfaced errors include a melt
value_name collision and join KeyErrors, not only a missing column to
reshape against.  Conversely, with those key columns present and the
schemas outside the regimes where pandas builds duplicate column labels
(Name not among the present key fields, and the suffixed merge schema
duplicate-free), the pipeline succeeds: in particular neither join stage
raises on zero-row inputs or on zero matches, and an empty result is a
valid outcome. -/
theorem c5_amended_join_error_conditions (responses recon numerical : DataFrame)
    (dl kl : Option (List String)) :
    ((∃ out, build_qc_output responses recon numerical dl kl = .ok out) →
      "Value" ∉ (pruneResponses (cleanse_df responses [] false) dl).cols ∧
        "Name" ∈ recon.cols ∧ "Value" ∈ numerical.cols) ∧
    ("Value" ∉ (pruneResponses (cleanse_df responses [] false) dl).cols →
      "Name" ∈ recon.cols → "Value" ∈ numerical.cols →
      "Name" ∉ keysOf (pruneResponses (cleanse_df responses [] false) dl).cols
        (kl.getD defaultKeyFields) →
      (qcOutCols responses recon numerical dl kl).Nodup →
      ∃ out, build_qc_output responses recon numerical dl kl = .ok out ∧
        out.cols = qcOutCols responses recon numerical dl kl) := by
  constructor
  · rintro ⟨out, hout⟩
    rw [cleanse_df_nil]
    by_cases h1 : "Value" ∈ (pruneResponses responses dl).cols
    · rw [build_qc_output_reshape_err responses recon numerical dl kl _
        (reshapeResponses_err _ kl h1)] at hout
      cases hout
    · obtain ⟨long, hre⟩ : ∃ long,
          reshapeResponses (pruneResponses responses dl) kl = .ok long :=
        ⟨_, reshapeResponses_ok _ kl h1⟩
      rw [build_qc_output_chain responses recon numerical dl kl long hre] at hout
      have hNlong : "Name" ∈ (cleanseLong long).cols := by
        show "Name" ∈ long.cols
        rw [reshapeResponses_cols _ _ _ hre]
        exact List.mem_append_right _ (by simp)
      by_cases h2 : "Name" ∈ recon.cols
      · obtain ⟨A, hA⟩ := stageA_ok_exists (cleanseLong long) recon hNlong h2
        rw [hA] at hout
        replace hout : mergeDF (cleanse_df A ["Value"] true)
            (cleanse_df numerical ["Value"] true) "Value" true "_num" = .ok out := hout
        exact ⟨h1, h2, (mergeDF_ok_key _ _ _ _ _ _ hout).2⟩
      · rw [stageA_err (cleanseLong long) recon h2] at hout
        replace hout : (Except.error ("KeyError: " ++ "Name") : Except String DataFrame) =
          .ok out := hout
        cases hout
  · intro h1 h2 h3 _ _
    rw [cleanse_df_nil] at h1
    obtain ⟨long, hre⟩ : ∃ long,
        reshapeResponses (pruneResponses responses dl) kl = .ok long :=
      ⟨_, reshapeResponses_ok _ kl h1⟩
    have hNlong : "Name" ∈ (cleanseLong long).cols := by
      show "Name" ∈ long.cols
      rw [reshapeResponses_cols _ _ _ hre]
      exact List.mem_append_right _ (by simp)
    have hVlong : "Value" ∈ (cleanseLong long).cols := by
      show "Value" ∈ long.cols
      rw [reshapeResponses_cols _ _ _ hre]
      exact List.mem_append_right _ (by simp)
    obtain ⟨A, hA⟩ := stageA_ok_exists (cleanseLong long) recon hNlong h2
    have hA2 : mergeDF (cleanseLong long) (cleanse_df recon reconColsToClean true)
        "Name" false "_recon" = .ok A := hA
    have hAV : "Value" ∈ A.cols := by
      rw [mergeDF_cols _ _ _ _ _ _ hA2]
      exact List.mem_append_left _ hVlong
    obtain ⟨B, hB⟩ := stageB_ok_exists A numerical hAV h3
    have hB2 : mergeDF (cleanse_df A ["Value"] true)
        (cleanse_df numerical ["Value"] true) "Value" true "_num" = .ok B := hB
    have hbuild : build_qc_output responses recon numerical dl kl = .ok B := by
      rw [build_qc_output_chain responses recon numerical dl kl long hre, hA]
      exact hB
    refine ⟨B, hbuild, ?_⟩
    unfold qcOutCols
    rw [cleanse_df_nil]
    rw [mergeDF_cols _ _ _ _ _ _ hB2]
    show A.cols ++ rightColsRenamed A.cols numerical.cols "Value" "_num" = _
    rw [mergeDF_cols _ _ _ _ _ _ hA2]
    show (long.cols ++ rightColsRenamed long.cols recon.cols "Name" "_recon") ++
      rightColsRenamed (long.cols ++ rightColsRenamed long.cols recon.cols "Name" "_recon")
        numerical.cols "Value" "_num" = _
    rw [reshapeResponses_cols _ _ _ hre]

theorem c5_amended_join_error_conditions_witness :
    (("Value" : String) ∉ (pruneResponses
        (cleanse_df (⟨["Respondent"], []⟩ : DataFrame) [] false) none).cols ∧
      ("Name" : String) ∈ (⟨["Name"], []⟩ : DataFrame).cols ∧
      ("Value" : String) ∈ (⟨["Value"], []⟩ : DataFrame).cols ∧
      ("Name" : String) ∉ keysOf (pruneResponses
        (cleanse_df (⟨["Respondent"], []⟩ : DataFrame) [] false) none).cols
        ((none : Option (List String)).getD defaultKeyFields) ∧
      (qcOutCols ⟨["Respondent"], []⟩ ⟨["Name"], []⟩ ⟨["Value"], []⟩
        none none).Nodup) ∧
    (∃ out, build_qc_output ⟨["Respondent"], []⟩ ⟨["Name"], []⟩ ⟨["Value"], []⟩
        none none = .ok out ∧
      out.cols = qcOutCols ⟨["Respondent"], []⟩ ⟨["Name"], []⟩ ⟨["Value"], []⟩
        none none) :=
  ⟨⟨by decide, by decide, by decide, by decide, by decide⟩,
   (c5_amended_join_error_conditions ⟨["Respondent"], []⟩ ⟨["Name"], []⟩
     ⟨["Value"], []⟩ none none).2 (by decide) (by decide) (by decide)
     (by decide) (by decide)⟩

/-- C7 counterexample: the code pipeline has no case_fold parameter and its
behavior differs from the spec-modelled pipeline with case_fold set to
false: on a lower-case input the code upper-cases unconditionally, so no
recognized configuration of build_qc_output yields the promised
case-preserving mode. -/
theorem c7_counterexample :
    build_qc_output_cf false
        ⟨["Respondent", "q1"], [[("Respondent", Cell.str "r1"), ("q1", Cell.str "x")]]⟩
        ⟨["Name"], [[("Name", Cell.str "q1")]]⟩ ⟨["Value"], []⟩ none none ≠
      build_qc_output
        ⟨["Respondent", "q1"], [[("Respondent", Cell.str "r1"), ("q1", Cell.str "x")]]⟩
        ⟨["Name"], [[("Name", Cell.str "q1")]]⟩ ⟨["Value"], []⟩ none none := by
  intro heq
  rw [show build_qc_output_cf false
        ⟨["Respondent", "q1"], [[("Respondent", Cell.str "r1"), ("q1", Cell.str "x")]]⟩
        ⟨["Name"], [[("Name", Cell.str "q1")]]⟩ ⟨["Value"], []⟩ none none =
      Except.ok ⟨["Respondent", "Name", "Value"],
        [[("Respondent", Cell.str "r1"), ("Name", Cell.str "q1"),
          ("Value", Cell.str "x")]]⟩ from rfl,
    show build_qc_output
        ⟨["Respondent", "q1"], [[("Respondent", Cell.str "r1"), ("q1", Cell.str "x")]]⟩
        ⟨["Name"], [[("Name", Cell.str "q1")]]⟩ ⟨["Value"], []⟩ none none =
      Except.ok ⟨["Respondent", "Name", "Value"],
        [[("Respondent", Cell.str "R1"), ("Name", Cell.str "Q1"),
          ("Value", Cell.str "X")]]⟩ from rfl] at heq
  injection heq with h
  exact absurd h (by decide)

/-- C7 amended: build_qc_output exposes no case_fold option; it coincides
with the spec-modelled configurable pipeline fixed at case_fold true.  The
underlying cleansing helpers do take an upper flag (default true in the
source): with the flag set the result is the upper-cased image of the
flag-off result, and with the flag off cleansing rewrites no character at
all (the non-whitespace content is preserved verbatim, so case is
unchanged). -/
theorem c7_amended_case_fold :
    (∀ (responses recon numerical : DataFrame) (dl kl : Option (List String)),
      build_qc_output responses recon numerical dl kl =
        build_qc_output_cf true responses recon numerical dl kl) ∧
    (∀ xs : List Cell, cleanse_series xs true = (cleanse_series xs false).map cellUpper) ∧
    (∀ s : String, (cleanseStr false s).data.filter (fun c => !pyWs c) =
      s.data.filter (fun c => !pyWs c)) := by
  refine ⟨fun _ _ _ _ _ => rfl, ?_, cleanseStr_content⟩
  intro xs
  unfold cleanse_series
  rw [List.map_map]
  apply List.map_congr_left
  intro c _
  cases c with
  | missing => rfl
  | str s => rfl
  | int n => rfl

/-- C8 counterexample: in the concrete scenario, the cleansing step that the
pipeline applies after reshaping (Respondent, Panel and Name only) leaves the
Value cell as the raw string, so the row after cleansing is Respondent R1,
Name Q1, Value still the raw answer with spaces, not the upper-cased YES the
claim asserts, and the Stage A output likewise carries the raw Value. -/
theorem c8_counterexample :
    reshapeResponses (pruneResponses (cleanse_df c8Responses [] false) none)
        (some ["Respondent"]) =
      .ok ⟨["Respondent", "Name", "Value"],
        [[("Respondent", Cell.str "r1 "), ("Name", Cell.str "Q1"),
          ("Value", Cell.str " yes ")]]⟩ ∧
    cleanseLong ⟨["Respondent", "Name", "Value"],
        [[("Respondent", Cell.str "r1 "), ("Name", Cell.str "Q1"),
          ("Value", Cell.str " yes ")]]⟩ =
      ⟨["Respondent", "Name", "Value"],
        [[("Respondent", Cell.str "R1"), ("Name", Cell.str "Q1"),
          ("Value", Cell.str " yes ")]]⟩ ∧
    Cell.str " yes " ≠ Cell.str "YES" := by
  refine ⟨by rfl, by rfl, by decide⟩

/-- C8 amended: the concrete scenario, stage by stage as the code computes
it: the reshape yields the single raw row (Q2 dropped as missing); the
post-reshape cleansing upper-cases Respondent and Name but leaves Value raw;
Stage A attaches Section A to the raw-Value row; Stage B cleanses Value on
both sides and attaches Code 1; the final output row is Respondent R1,
Name Q1, Value YES, Section A, Code 1, as the claim states for the end
result. -/
theorem c8_amended_scenario :
    reshapeResponses (pruneResponses (cleanse_df c8Responses [] false) none)
        (some ["Respondent"]) =
      .ok ⟨["Respondent", "Name", "Value"],
        [[("Respondent", Cell.str "r1 "), ("Name", Cell.str "Q1"),
          ("Value", Cell.str " yes ")]]⟩ ∧
    cleanseLong ⟨["Respondent", "Name", "Value"],
        [[("Respondent", Cell.str "r1 "), ("Name", Cell.str "Q1"),
          ("Value", Cell.str " yes ")]]⟩ =
      ⟨["Respondent", "Name", "Value"],
        [[("Respondent", Cell.str "R1"), ("Name", Cell.str "Q1"),
          ("Value", Cell.str " yes ")]]⟩ ∧
    stageA ⟨["Respondent", "Name", "Value"],
        [[("Respondent", Cell.str "R1"), ("Name", Cell.str "Q1"),
          ("Value", Cell.str " yes ")]]⟩ c8Recon =
      .ok ⟨["Respondent", "Name", "Value", "Section"],
        [[("Respondent", Cell.str "R1"), ("Name", Cell.str "Q1"),
          ("Value", Cell.str " yes "), ("Section", Cell.str "A")]]⟩ ∧
    stageB ⟨["Respondent", "Name", "Value", "Section"],
        [[("Respondent", Cell.str "R1"), ("Name", Cell.str "Q1"),
          ("Value", Cell.str " yes "), ("Section", Cell.str "A")]]⟩ c8Numerical =
      .ok ⟨["Respondent", "Name", "Value", "Section", "Code"],
        [[("Respondent", Cell.str "R1"), ("Name", Cell.str "Q1"),
          ("Value", Cell.str "YES"), ("Section", Cell.str "A"),
          ("Code", Cell.int 1)]]⟩ ∧
    build_qc_output c8Responses c8Recon c8Numerical none (some ["Respondent"]) =
      .ok ⟨["Respondent", "Name", "Value", "Section", "Code"],
        [[("Respondent", Cell.str "R1"), ("Name", Cell.str "Q1"),
          ("Value", Cell.str "YES"), ("Section", Cell.str "A"),
          ("Code", Cell.int 1)]]⟩ := by
  refine ⟨by rfl, by rfl, by rfl, by rfl, by rfl⟩

/-- C9: one pipeline invocation never mutates the three caller-supplied
tables: the post-call state of the argument objects equals the pre-call
state, and the returned table is a pure function of the input values. -/
theorem c9_no_input_mutation (inp : PipelineInputs) (dl kl : Option (List String)) :
    (build_qc_output_run inp dl kl).2 = inp ∧
    (build_qc_output_run inp dl kl).1 =
      build_qc_output inp.responses inp.recon inp.numerical dl kl :=
  ⟨rfl, rfl⟩

theorem lookup_filter_not_mem (r : Row) (ds : List String) (c : String)
    (h : c ∉ ds) :
    (r.filter (fun p => decide (p.1 ∉ ds))).lookup c = r.lookup c := by
  induction r with
  | nil => rfl
  | cons p r ih =>
    obtain ⟨k, v⟩ := p
    by_cases hk : c = k
    · subst hk
      rw [List.filter_cons_of_pos (by simpa using h)]
      simp [List.lookup_cons]
    · have hbeq : (c == k) = false := by simpa using hk
      by_cases hkd : k ∈ ds
      · rw [List.filter_cons_of_neg (by simpa using hkd), ih]
        simp [List.lookup_cons, hbeq]
      · rw [List.filter_cons_of_pos (by simpa using hkd)]
        simp only [List.lookup_cons, hbeq]
        simpa using ih

theorem pruneResponses_row (d : DataFrame) (dl : Option (List String)) :
    ∀ row2 ∈ (pruneResponses d dl).rows, ∃ row ∈ d.rows,
      ∀ c ∈ (pruneResponses d dl).cols, rowGet row2 c = rowGet row c := by
  cases dl with
  | none => exact fun row2 h => ⟨row2, h, fun c _ => rfl⟩
  | some ds =>
    intro row2 hrow
    have hred : pruneResponses d (some ds) =
        if ds.isEmpty = true then d else dropCols d ds := rfl
    rw [hred] at hrow ⊢
    by_cases he : ds.isEmpty
    · rw [if_pos he] at hrow ⊢
      exact ⟨row2, hrow, fun c _ => rfl⟩
    · rw [if_neg he] at hrow ⊢
      have hrow2 : row2 ∈ d.rows.map (fun r => r.filter (fun p => decide (p.1 ∉ ds))) :=
        hrow
      obtain ⟨row, hmem, rfl⟩ :
          ∃ row ∈ d.rows, row.filter (fun p => decide (p.1 ∉ ds)) = row2 := by
        simpa using hrow2
      refine ⟨row, hmem, ?_⟩
      intro c hc
      have hcnotin : c ∉ ds := by
        have hc2 : c ∈ d.cols.filter (fun c => decide (c ∉ ds)) := hc
        simpa using (List.mem_filter.1 hc2).2
      unfold rowGet
      rw [lookup_filter_not_mem row ds c hcnotin]

theorem keysOf_subset (cols keyFields : List String) : keysOf cols keyFields ⊆ cols := by
  intro c hc
  unfold keysOf at hc
  simpa using (List.mem_filter.1 hc).2

theorem dataColsOf_subset (cols keys : List String) : dataColsOf cols keys ⊆ cols := by
  intro c hc
  unfold dataColsOf at hc
  exact (List.mem_filter.1 hc).1

/-- C10: after reshaping, the pipeline cleanses only the Respondent, Panel
and Name columns: every other key-field column keeps its raw response values
through to the final output; the Value column enters the Stage A join
un-cleansed (each Stage A Value cell is a verbatim response answer cell),
and it is cleansed only between Stage A and Stage B, so every Value cell of
the final output is a fixed point of cleansing.  The hypotheses keep the
embedding inside the regime where pandas itself does not raise or create
duplicate columns: no response column named Value or Name, and the join key
columns present. -/
theorem c10_cleanse_scope (responses recon numerical : DataFrame)
    (dl kl : Option (List String)) (k : String)
    (hv : "Value" ∉ responses.cols)
    (_hn : "Name" ∉ responses.cols)
    (hNr : "Name" ∈ recon.cols) (hVn : "Value" ∈ numerical.cols)
    (hk : k ∈ keysOf (pruneResponses (cleanse_df responses [] false) dl).cols
      (kl.getD defaultKeyFields))
    (hkR : k ≠ "Respondent") (hkP : k ≠ "Panel") (hkN : k ≠ "Name")
    (hkV : k ≠ "Value") :
    ∃ long A out,
      reshapeResponses (pruneResponses (cleanse_df responses [] false) dl) kl =
        .ok long ∧
      stageA (cleanseLong long) recon = .ok A ∧
      stageB A numerical = .ok out ∧
      build_qc_output responses recon numerical dl kl = .ok out ∧
      (∀ a ∈ A.rows, ∃ r ∈ responses.rows,
        ∃ v ∈ dataColsOf (pruneResponses (cleanse_df responses [] false) dl).cols
          (keysOf (pruneResponses (cleanse_df responses [] false) dl).cols
            (kl.getD defaultKeyFields)),
          rowGet a "Value" = rowGet r v) ∧
      (∀ o ∈ out.rows, ∃ r ∈ responses.rows, rowGet o k = rowGet r k) ∧
      (∀ o ∈ out.rows, cleanseCell true (rowGet o "Value") = rowGet o "Value") := by
  rw [cleanse_df_nil] at hk ⊢
  have h1 : "Value" ∉ (pruneResponses responses dl).cols :=
    fun h => hv (pruneResponses_cols_subset responses dl h)
  obtain ⟨long, hre⟩ : ∃ long,
      reshapeResponses (pruneResponses responses dl) kl = .ok long :=
    ⟨_, reshapeResponses_ok _ kl h1⟩
  have hlcols := reshapeResponses_cols _ _ _ hre
  have hlrows := reshapeResponses_rows_mem _ _ _ hre
  have hNlong : "Name" ∈ (cleanseLong long).cols := by
    show "Name" ∈ long.cols
    rw [hlcols]
    exact List.mem_append_right _ (by simp)
  have hVlong : "Value" ∈ (cleanseLong long).cols := by
    show "Value" ∈ long.cols
    rw [hlcols]
    exact List.mem_append_right _ (by simp)
  obtain ⟨A, hA⟩ := stageA_ok_exists (cleanseLong long) recon hNlong hNr
  have hAm : mergeDF (cleanseLong long) (cleanse_df recon reconColsToClean true)
      "Name" false "_recon" = .ok A := hA
  have hAV : "Value" ∈ A.cols := by
    rw [mergeDF_cols _ _ _ _ _ _ hAm]
    exact List.mem_append_left _ hVlong
  obtain ⟨out, hB⟩ := stageB_ok_exists A numerical hAV hVn
  have hBm : mergeDF (cleanse_df A ["Value"] true) (cleanse_df numerical ["Value"] true)
      "Value" true "_num" = .ok out := hB
  have hbuild : build_qc_output responses recon numerical dl kl = .ok out := by
    rw [build_qc_output_chain responses recon numerical dl kl long hre, hA]
    exact hB
  have hVnotkeys : "Value" ∉ keysOf (pruneResponses responses dl).cols
      (kl.getD defaultKeyFields) := fun h => h1 (keysOf_subset _ _ h)
  have hmelt_fst : ∀ (v : String) (rr : Row),
      (cleanseRow ["Respondent", "Panel", "Name"] true
        (meltRow (keysOf (pruneResponses responses dl).cols (kl.getD defaultKeyFields)) v rr)).map
          Prod.fst =
        keysOf (pruneResponses responses dl).cols (kl.getD defaultKeyFields) ++
          ["Name", "Value"] := by
    intro v rr
    rw [cleanseRow_fst, meltRow_fst]
  have hAstruct : ∀ a ∈ A.rows,
      ∃ rr ∈ (pruneResponses responses dl).rows,
      ∃ v ∈ dataColsOf (pruneResponses responses dl).cols
        (keysOf (pruneResponses responses dl).cols (kl.getD defaultKeyFields)),
      ∃ rest : Row,
        a = cleanseRow ["Respondent", "Panel", "Name"] true
          (meltRow (keysOf (pruneResponses responses dl).cols (kl.getD defaultKeyFields)) v rr)
          ++ rest := by
    intro a ha
    obtain ⟨rc, hrc, hcase⟩ := mergeDF_mem_elim _ _ _ _ _ _ hAm a ha
    rcases hcase with ⟨q, hq, hmatch, hae⟩ | ⟨hfalse, -, -⟩
    · have hrc2 : rc ∈ long.rows.map (cleanseRow ["Respondent", "Panel", "Name"] true) :=
        hrc
      obtain ⟨lrow, hlrow, rfl⟩ : ∃ lrow ∈ long.rows,
          cleanseRow ["Respondent", "Panel", "Name"] true lrow = rc := by
        simpa using hrc2
      obtain ⟨-, v, hvmem, rr, hrr, rfl⟩ := hlrows lrow hlrow
      exact ⟨rr, hrr, v, hvmem, _, hae⟩
    · cases hfalse
  have hBstruct : ∀ o ∈ out.rows, ∃ a ∈ A.rows, ∃ t : Row,
      o = cleanseRow ["Value"] true a ++ t := by
    intro o ho
    obtain ⟨rp, hrp, hcase⟩ := mergeDF_mem_elim _ _ _ _ _ _ hBm o ho
    have hrp2 : rp ∈ A.rows.map (cleanseRow ["Value"] true) := hrp
    obtain ⟨a, haA, rfl⟩ : ∃ a ∈ A.rows, cleanseRow ["Value"] true a = rp := by
      simpa using hrp2
    rcases hcase with ⟨q, hq, hmq, hoe⟩ | ⟨-, -, hoe⟩
    · exact ⟨a, haA, _, hoe⟩
    · exact ⟨a, haA, _, hoe⟩
  refine ⟨long, A, out, hre, hA, hB, hbuild, ?_, ?_, ?_⟩
  · intro a ha
    obtain ⟨rr, hrr, v, hvmem, rest, rfl⟩ := hAstruct a ha
    have hvalmem : "Value" ∈ (cleanseRow ["Respondent", "Panel", "Name"] true
        (meltRow (keysOf (pruneResponses responses dl).cols (kl.getD defaultKeyFields)) v rr)).map
          Prod.fst := by
      rw [hmelt_fst]
      exact List.mem_append_right _ (by simp)
    have heqval : rowGet (cleanseRow ["Respondent", "Panel", "Name"] true
        (meltRow (keysOf (pruneResponses responses dl).cols (kl.getD defaultKeyFields)) v rr)
        ++ rest) "Value" = rowGet rr v := by
      rw [rowGet_append_left _ _ _ hvalmem, rowGet_cleanseRow, if_neg (by decide),
        rowGet_meltRow_value _ _ _ hVnotkeys]
    obtain ⟨rraw, hraw, hsame⟩ := pruneResponses_row responses dl rr hrr
    exact ⟨rraw, hraw, v, hvmem,
      by rw [heqval]; exact hsame v (dataColsOf_subset _ _ hvmem)⟩
  · intro o ho
    obtain ⟨a, haA, t, rfl⟩ := hBstruct o ho
    obtain ⟨rr, hrr, v, hvmem, rest, rfl⟩ := hAstruct a haA
    have hkmem0 : k ∈ (cleanseRow ["Respondent", "Panel", "Name"] true
        (meltRow (keysOf (pruneResponses responses dl).cols (kl.getD defaultKeyFields)) v rr)).map
          Prod.fst := by
      rw [hmelt_fst]
      exact List.mem_append_left _ hk
    have hkmem1 : k ∈ ((cleanseRow ["Respondent", "Panel", "Name"] true
        (meltRow (keysOf (pruneResponses responses dl).cols (kl.getD defaultKeyFields)) v rr)
        ++ rest)).map Prod.fst := by
      rw [List.map_append]
      exact List.mem_append_left _ hkmem0
    have hkmem2 : k ∈ (cleanseRow ["Value"] true
        (cleanseRow ["Respondent", "Panel", "Name"] true
          (meltRow (keysOf (pruneResponses responses dl).cols (kl.getD defaultKeyFields)) v rr)
          ++ rest)).map Prod.fst := by
      rw [cleanseRow_fst]
      exact hkmem1
    have heqk : rowGet (cleanseRow ["Value"] true
        (cleanseRow ["Respondent", "Panel", "Name"] true
          (meltRow (keysOf (pruneResponses responses dl).cols (kl.getD defaultKeyFields)) v rr)
          ++ rest) ++ t) k = rowGet rr k := by
      rw [rowGet_append_left _ _ _ hkmem2, rowGet_cleanseRow, if_neg (by simp [hkV]),
        rowGet_append_left _ _ _ hkmem0, rowGet_cleanseRow,
        if_neg (by simp [hkR, hkP, hkN]), rowGet_meltRow_key _ _ _ _ hk]
    obtain ⟨rraw, hraw, hsame⟩ := pruneResponses_row responses dl rr hrr
    exact ⟨rraw, hraw, by rw [heqk]; exact hsame k (keysOf_subset _ _ hk)⟩
  · intro o ho
    obtain ⟨a, haA, t, rfl⟩ := hBstruct o ho
    obtain ⟨rr, hrr, v, hvmem, rest, hasplit⟩ := hAstruct a haA
    have hvalmemA : "Value" ∈ a.map Prod.fst := by
      rw [hasplit, List.map_append]
      apply List.mem_append_left
      rw [hmelt_fst]
      exact List.mem_append_right _ (by simp)
    have hox : rowGet (cleanseRow ["Value"] true a ++ t) "Value" =
        cleanseCell true (rowGet a "Value") := by
      rw [rowGet_append_left _ _ _ (by rw [cleanseRow_fst]; exact hvalmemA),
        rowGet_cleanseRow, if_pos (by simp)]
    rw [hox, cleanseCell_idem]

theorem c10_cleanse_scope_witness :
    (("Value" : String) ∉ (⟨["Respondent", "End time (GMT)", "Q1"],
        [[("Respondent", Cell.str "r1"), ("End time (GMT)", Cell.str " t1 "),
          ("Q1", Cell.str "yes")]]⟩ : DataFrame).cols ∧
      ("Name" : String) ∉ (⟨["Respondent", "End time (GMT)", "Q1"],
        [[("Respondent", Cell.str "r1"), ("End time (GMT)", Cell.str " t1 "),
          ("Q1", Cell.str "yes")]]⟩ : DataFrame).cols ∧
      ("Name" : String) ∈ c8Recon.cols ∧ ("Value" : String) ∈ c8Numerical.cols ∧
      "End time (GMT)" ∈ keysOf (pruneResponses
        (cleanse_df ⟨["Respondent", "End time (GMT)", "Q1"],
          [[("Respondent", Cell.str "r1"), ("End time (GMT)", Cell.str " t1 "),
            ("Q1", Cell.str "yes")]]⟩ [] false) none).cols
        ((none : Option (List String)).getD defaultKeyFields) ∧
      ("End time (GMT)" : String) ≠ "Respondent" ∧
      ("End time (GMT)" : String) ≠ "Panel" ∧
      ("End time (GMT)" : String) ≠ "Name" ∧
      ("End time (GMT)" : String) ≠ "Value") ∧
    (∃ long A out,
      reshapeResponses (pruneResponses
        (cleanse_df ⟨["Respondent", "End time (GMT)", "Q1"],
          [[("Respondent", Cell.str "r1"), ("End time (GMT)", Cell.str " t1 "),
            ("Q1", Cell.str "yes")]]⟩ [] false) none) none = .ok long ∧
      stageA (cleanseLong long) c8Recon = .ok A ∧
      stageB A c8Numerical = .ok out ∧
      build_qc_output ⟨["Respondent", "End time (GMT)", "Q1"],
        [[("Respondent", Cell.str "r1"), ("End time (GMT)", Cell.str " t1 "),
          ("Q1", Cell.str "yes")]]⟩ c8Recon c8Numerical none none = .ok out ∧
      (∀ a ∈ A.rows, ∃ r ∈ (⟨["Respondent", "End time (GMT)", "Q1"],
          [[("Respondent", Cell.str "r1"), ("End time (GMT)", Cell.str " t1 "),
            ("Q1", Cell.str "yes")]]⟩ : DataFrame).rows,
        ∃ v ∈ dataColsOf (pruneResponses
          (cleanse_df ⟨["Respondent", "End time (GMT)", "Q1"],
            [[("Respondent", Cell.str "r1"), ("End time (GMT)", Cell.str " t1 "),
              ("Q1", Cell.str "yes")]]⟩ [] false) none).cols
          (keysOf (pruneResponses
            (cleanse_df ⟨["Respondent", "End time (GMT)", "Q1"],
              [[("Respondent", Cell.str "r1"), ("End time (GMT)", Cell.str " t1 "),
                ("Q1", Cell.str "yes")]]⟩ [] false) none).cols
            ((none : Option (List String)).getD defaultKeyFields)),
          rowGet a "Value" = rowGet r v) ∧
      (∀ o ∈ out.rows, ∃ r ∈ (⟨["Respondent", "End time (GMT)", "Q1"],
          [[("Respondent", Cell.str "r1"), ("End time (GMT)", Cell.str " t1 "),
            ("Q1", Cell.str "yes")]]⟩ : DataFrame).rows,
        rowGet o "End time (GMT)" = rowGet r "End time (GMT)") ∧
      (∀ o ∈ out.rows, cleanseCell true (rowGet o "Value") = rowGet o "Value")) :=
  ⟨⟨by decide, by decide, by decide, by decide, by decide, by decide, by decide,
    by decide, by decide⟩,
   c10_cleanse_scope ⟨["Respondent", "End time (GMT)", "Q1"],
      [[("Respondent", Cell.str "r1"), ("End time (GMT)", Cell.str " t1 "),
        ("Q1", Cell.str "yes")]]⟩ c8Recon c8Numerical none none "End time (GMT)"
     (by decide) (by decide) (by decide) (by decide) (by decide) (by decide)
     (by decide) (by decide) (by decide)⟩
